import Mathlib

/-
Verification development for the GS-App repository.

The repository is a set of Python office-automation tools for a satellite
ground-station operator.  This file gives a shallow embedding of the parts of
the code that the specification claims talk about:

* `src/IR_gen.py` — the incident-report generator: `normalize_serial`, the
  docx template helpers (`set_2col_table_value`, `set_paragraph_after_heading`,
  `append_figures_after_heading`, the table fillers) and `generate_docx`,
  plus the submit handler control flow.
* `src/fetch_convert.py` — the SC log-to-command converter:
  `parse_command_line` and `convert_log`.
* `src/ms_graph.py` — the OAuth callback redemption logic of `login_ui`
  and the `st.cache_resource` flow store.
* `src/sat_tracker.py` — the QTimer wiring of the live ground-track update.

Python strings are modelled as Lean `String`; regular expressions are
translated into explicit character scanners with the same matching semantics
(leftmost match, greedy fixed-width pieces, non-overlapping findall).
Python `\s`, `\d` and `str.strip` are modelled over ASCII, which covers every
string the programs construct.
-/

set_option maxRecDepth 4096

-- ==========================================================================
-- Character and string utilities shared by the embedded functions
-- ==========================================================================

/-- ASCII whitespace, the characters matched by Python regex `\s` and stripped
by `str.strip()` (space, tab, newline, carriage return, vertical tab,
form feed). -/
def isSpaceChar (c : Char) : Bool :=
  c = ' ' || c = '\t' || c = '\n' || c = '\r' || c = '\x0b' || c = '\x0c'

/-- The character class `[0-9A-Fa-f]` used by the SC converter regexes. -/
def isHexChar (c : Char) : Bool :=
  c.isDigit || ('A' ≤ c && c ≤ 'F') || ('a' ≤ c && c ≤ 'f')

/-- Python `str.strip()` with no argument: remove leading and trailing
whitespace. -/
def pyStrip (s : String) : String :=
  ⟨((s.data.dropWhile isSpaceChar).reverse.dropWhile isSpaceChar).reverse⟩

/-- Python `str.zfill w` on a non-negative digit string: left-pad with zeros
to width `w`.  (The sign-aware branch of `zfill` never fires in the
repository: `normalize_serial` applies it only to strings of decimal
digits.) -/
def py_zfill (w : Nat) (s : String) : String :=
  if w ≤ s.length then s else ⟨List.replicate (w - s.length) '0' ++ s.data⟩

-- ==========================================================================
-- src/IR_gen.py : normalize_serial (lines 169-175)
-- ==========================================================================

/-- Model of `normalize_serial` (src/IR_gen.py lines 169-175):
strip the input; return `""` when the result is empty or is not a full match
of `\d{1,4}`; otherwise zero-fill to width 4.  `serial_raw or ""` is the
identity on strings, so it is dropped. -/
def normalize_serial (serial_raw : String) : String :=
  let s := pyStrip serial_raw
  if s = "" then ""
  else if !(1 ≤ s.length && s.length ≤ 4 && s.data.all Char.isDigit) then ""
  else py_zfill 4 s

-- Helper lemmas about pyStrip and py_zfill.

theorem dropWhile_eq_self_of_all {p : Char → Bool} :
    ∀ l : List Char, (∀ c ∈ l, p c = false) → l.dropWhile p = l := by
  intro l h
  cases l with
  | nil => rfl
  | cons a t =>
    simp [List.dropWhile_cons, h a (by simp)]

/-- Stripping a string with no whitespace at either end (in particular an
all-digit string) is the identity. -/
theorem pyStrip_eq_self_of_all {s : String}
    (h : ∀ c ∈ s.data, isSpaceChar c = false) : pyStrip s = s := by
  unfold pyStrip
  rw [dropWhile_eq_self_of_all s.data h,
      dropWhile_eq_self_of_all s.data.reverse (by intro c hc; exact h c (List.mem_reverse.mp hc)),
      List.reverse_reverse]

theorem digit_not_space {c : Char} (h : c.isDigit = true) : isSpaceChar c = false := by
  by_contra hc
  rw [Bool.not_eq_false] at hc
  unfold isSpaceChar at hc
  simp only [Bool.or_eq_true, decide_eq_true_eq] at hc
  rcases hc with ((((hc | hc) | hc) | hc) | hc) | hc <;> subst hc <;>
    exact absurd h (by decide)

theorem py_zfill_length {s : String} (h : s.length ≤ 4) :
    (py_zfill 4 s).length = 4 := by
  unfold py_zfill
  by_cases h4 : 4 ≤ s.length
  · rw [if_pos h4]; omega
  · rw [if_neg h4]
    show (List.replicate (4 - s.length) '0' ++ s.data).length = 4
    rw [List.length_append, List.length_replicate]
    have hsd : s.data.length = s.length := rfl
    omega

theorem py_zfill_all_digits {s : String} (h : s.data.all Char.isDigit = true) :
    (py_zfill 4 s).data.all Char.isDigit = true := by
  unfold py_zfill
  by_cases h4 : 4 ≤ s.length
  · rw [if_pos h4]; exact h
  · rw [if_neg h4]
    show (List.replicate (4 - s.length) '0' ++ s.data).all Char.isDigit = true
    rw [List.all_append]
    have hrep : (List.replicate (4 - s.length) '0').all Char.isDigit = true := by
      rw [List.all_eq_true]
      intro c hc
      rw [List.eq_of_mem_replicate hc]
      decide
    rw [hrep, h]
    rfl

theorem py_zfill_eq_self {s : String} (h : 4 ≤ s.length) : py_zfill 4 s = s := by
  unfold py_zfill
  rw [if_pos h]

/-- Characterization of `normalize_serial`: a single conditional on the
stripped string. -/
theorem normalize_serial_eq (s : String) :
    normalize_serial s =
      if (1 ≤ (pyStrip s).length && (pyStrip s).length ≤ 4 &&
          (pyStrip s).data.all Char.isDigit) then py_zfill 4 (pyStrip s)
      else "" := by
  unfold normalize_serial
  by_cases h0 : pyStrip s = ""
  · rw [h0]
    have hc : (1 ≤ ("" : String).length && ("" : String).length ≤ 4 &&
        ("" : String).data.all Char.isDigit) = false := by decide
    simp [hc]
  · simp only [h0, if_false]
    cases hcond : (1 ≤ (pyStrip s).length && (pyStrip s).length ≤ 4 &&
        (pyStrip s).data.all Char.isDigit) <;> simp [hcond]

/-- C10 (claim): `normalize_serial` returns `""` exactly when the stripped
input is not a string of 1 to 4 decimal digits, returns the stripped digit
string zero-padded to 4 digits otherwise, and is idempotent. -/
theorem c10_normalize_serial :
    (∀ s : String,
       ¬(1 ≤ (pyStrip s).length ∧ (pyStrip s).length ≤ 4 ∧
          (pyStrip s).data.all Char.isDigit = true) →
       normalize_serial s = "") ∧
    (∀ s : String,
       (1 ≤ (pyStrip s).length ∧ (pyStrip s).length ≤ 4 ∧
          (pyStrip s).data.all Char.isDigit = true) →
       normalize_serial s = py_zfill 4 (pyStrip s)) ∧
    (∀ s : String, normalize_serial (normalize_serial s) = normalize_serial s) := by
  have hbool : ∀ s : String,
      (1 ≤ (pyStrip s).length && (pyStrip s).length ≤ 4 &&
        (pyStrip s).data.all Char.isDigit) = true ↔
      (1 ≤ (pyStrip s).length ∧ (pyStrip s).length ≤ 4 ∧
        (pyStrip s).data.all Char.isDigit = true) := by
    intro s
    simp [Bool.and_eq_true, and_assoc]
  refine ⟨?_, ?_, ?_⟩
  · intro s hbad
    rw [normalize_serial_eq s, if_neg]
    intro hc
    exact hbad ((hbool s).mp hc)
  · intro s hgood
    rw [normalize_serial_eq s, if_pos ((hbool s).mpr hgood)]
  · intro s
    rw [normalize_serial_eq s]
    by_cases hc : (1 ≤ (pyStrip s).length && (pyStrip s).length ≤ 4 &&
        (pyStrip s).data.all Char.isDigit) = true
    · rw [if_pos hc]
      obtain ⟨h1, h4, hd⟩ := (hbool s).mp hc
      -- the zero-filled string is 4 digits, so a second pass is the identity
      have hlen : (py_zfill 4 (pyStrip s)).length = 4 := py_zfill_length h4
      have hdig : (py_zfill 4 (pyStrip s)).data.all Char.isDigit = true :=
        py_zfill_all_digits hd
      have hstrip : pyStrip (py_zfill 4 (pyStrip s)) = py_zfill 4 (pyStrip s) := by
        apply pyStrip_eq_self_of_all
        intro c hcmem
        exact digit_not_space (List.all_eq_true.mp hdig c hcmem)
      rw [normalize_serial_eq, hstrip, hlen, if_pos (by simp [hdig]),
          py_zfill_eq_self (le_of_eq hlen.symm)]
    · rw [if_neg hc, normalize_serial_eq]
      have h0 : pyStrip "" = "" := by decide
      rw [h0]
      simp

/-- Witness for C10: concrete evaluations discharging the hypotheses. -/
theorem c10_normalize_serial_witness :
    normalize_serial " 12 " = py_zfill 4 (pyStrip " 12 ") ∧
    normalize_serial "abc" = "" := by
  refine ⟨c10_normalize_serial.2.1 " 12 " (by decide), ?_⟩
  exact c10_normalize_serial.1 "abc" (by decide)

-- ==========================================================================
-- src/fetch_convert.py : parse_command_line (lines 17-52)
-- ==========================================================================

/-- Does the character list start with the given pattern list. -/
def startsWithL : List Char → List Char → Bool
  | _, [] => true
  | [], _ :: _ => false
  | c :: cs, p :: ps => c = p && startsWithL cs ps

/-- Scanner for the anchored regex
`0[xX]([0-9A-Fa-f]{2})\s+([0-9A-Fa-f]{2,4})` after optional leading
whitespace, as in `re.match` of parse_command_line.  On success it returns
the uppercased command id (group 1), the uppercased code string (group 2,
greedy up to 4 hex digits) and the characters after the match end,
mirroring `line[m.end():]`. -/
def matchHeader (cs : List Char) : Option (String × String × List Char) :=
  match cs.dropWhile isSpaceChar with
  | c0 :: x :: h1 :: h2 :: t2 =>
    if c0 = '0' && (x = 'x' || x = 'X') && isHexChar h1 && isHexChar h2 then
      let sp := t2.takeWhile isSpaceChar
      let t3 := t2.dropWhile isSpaceChar
      if sp.isEmpty then none
      else
        let run := t3.takeWhile isHexChar
        if run.length < 2 then none
        else
          let code := run.take 4
          some (⟨[h1.toUpper, h2.toUpper]⟩, ⟨code.map Char.toUpper⟩,
                t3.drop code.length)
    else none
  | _ => none

/-- A character the token class `[^ \t#]` accepts. -/
def isTokenChar (c : Char) : Bool := !(c = ' ' || c = '\t' || c = '#')

/-- Fuelled scanner for the regex findall `#([^ \t#]+)`: every `#` followed
by a maximal nonempty run of characters other than space, tab and `#`,
scanning left to right without overlap.  The fuel (one unit per character)
keeps the recursion structural; `findTokens` supplies enough fuel. -/
def findTokensF : Nat → List Char → List String
  | 0, _ => []
  | _ + 1, [] => []
  | fuel + 1, c :: rest =>
    if c = '#' then
      let run := rest.takeWhile isTokenChar
      if run.isEmpty then findTokensF fuel rest
      else (⟨run⟩ : String) :: findTokensF fuel (rest.drop run.length)
    else findTokensF fuel rest

def findTokens (cs : List Char) : List String := findTokensF cs.length cs

/-- The descriptor search of parse_command_line: the first token that does
not start with `SC_WAIT_A` or `SC_DATE`. -/
def findDesc : List String → Option String
  | [] => none
  | t :: ts =>
    if startsWithL t.data "SC_WAIT_A".data || startsWithL t.data "SC_DATE".data then
      findDesc ts
    else some t

/-- Python `rest.split(needle, 1)[0]`: the characters before the first
occurrence of `needle`, or the whole list when `needle` does not occur. -/
def splitBeforeFirst : List Char → List Char → List Char
  | [], _ => []
  | c :: rest, needle =>
    if startsWithL (c :: rest) needle then []
    else c :: splitBeforeFirst rest needle

/-- The regex findall `([0-9A-Fa-f]{2})`: leftmost non-overlapping pairs of
hex digits. -/
def hexPairs : List Char → List (List Char)
  | a :: b :: rest =>
    if isHexChar a && isHexChar b then [a, b] :: hexPairs rest
    else hexPairs (b :: rest)
  | _ => []

/-- Model of `parse_command_line` (src/fetch_convert.py lines 17-52). -/
def parse_command_line (line : String) : Option (String × String × String) :=
  match matchHeader line.data with
  | none => none
  | some (cmd_id, code_str, rest) =>
    match findDesc (findTokens rest) with
    | none => none
    | some desc =>
      let pfx := if code_str.length = 4
        then "(" ++ (⟨code_str.data.take 2⟩ : String) ++ ")(" ++
             (⟨code_str.data.drop 2⟩ : String) ++ ")"
        else "(" ++ code_str ++ ")"
      let descriptor := pfx ++ " " ++ desc
      let pre_desc := splitBeforeFirst rest ('#' :: desc.data)
      let params := hexPairs pre_desc
      let param_str :=
        String.intercalate "," (params.map fun p => (⟨p.map Char.toUpper⟩ : String))
      some (cmd_id, descriptor, param_str)

-- ==========================================================================
-- src/fetch_convert.py : convert_log (lines 55-97)
-- ==========================================================================

structure PyDateTime where
  year : Nat
  month : Nat
  day : Nat
  hour : Nat
  minute : Nat
  second : Nat
deriving DecidableEq, Repr

def isLeapYear (y : Nat) : Bool := (y % 4 = 0 && y % 100 != 0) || y % 400 = 0

def daysInMonth (y m : Nat) : Nat :=
  if m = 2 then (if isLeapYear y then 29 else 28)
  else if m = 4 || m = 6 || m = 9 || m = 11 then 30 else 31

def digitsToNat (l : List Char) : Nat := l.foldl (fun n c => n * 10 + (c.toNat - 48)) 0

/-- Search for the regex `#SC_WAIT_A=(\d+)`: the first position where the
literal is followed by at least one digit; the capture is the maximal digit
run. -/
def searchWait : List Char → Option String
  | [] => none
  | c :: rest =>
    if startsWithL (c :: rest) "#SC_WAIT_A=".data then
      let ds := ((c :: rest).drop 11).takeWhile Char.isDigit
      if ds.isEmpty then searchWait rest else some ⟨ds⟩
    else searchWait rest

/-- Try to match the SC_DATE payload `\d{4}/\d{2}/\d{2} \d{2}:\d{2}:\d{2}`
at the head of the list, returning the 19 captured characters. -/
def matchDatePayload (cs : List Char) : Option (List Char) :=
  match cs with
  | y1 :: y2 :: y3 :: y4 :: '/' :: m1 :: m2 :: '/' :: d1 :: d2 :: ' ' :: h1 :: h2 :: ':' :: n1 :: n2 :: ':' :: s1 :: s2 :: _ =>
    if (y1.isDigit && y2.isDigit && y3.isDigit && y4.isDigit &&
        m1.isDigit && m2.isDigit && d1.isDigit && d2.isDigit &&
        h1.isDigit && h2.isDigit && n1.isDigit && n2.isDigit &&
        s1.isDigit && s2.isDigit) then
      some [y1,y2,y3,y4,'/',m1,m2,'/',d1,d2,' ',h1,h2,':',n1,n2,':',s1,s2]
    else none
  | _ => none

/-- Search for the regex
`#SC_DATE=(\d{4}/\d{2}/\d{2} \d{2}:\d{2}:\d{2})`: first position where the
whole pattern matches. -/
def searchScDate : List Char → Option (List Char)
  | [] => none
  | c :: rest =>
    if startsWithL (c :: rest) "#SC_DATE=".data then
      match matchDatePayload ((c :: rest).drop 9) with
      | some g => some g
      | none => searchScDate rest
    else searchScDate rest

/-- Model of `datetime.strptime(s, "%Y/%m/%d %H:%M:%S")` on a string already
known to have the digit shape: read the six fields and validate the ranges
datetime enforces (year 1-9999, month 1-12, day within the month, hour 0-23,
minute 0-59, second 0-59); a failure raises ValueError, modelled as `none`. -/
def toDateTime (g : List Char) : Option PyDateTime :=
  let y := digitsToNat (g.take 4)
  let mo := digitsToNat ((g.drop 5).take 2)
  let d := digitsToNat ((g.drop 8).take 2)
  let h := digitsToNat ((g.drop 11).take 2)
  let mi := digitsToNat ((g.drop 14).take 2)
  let s := digitsToNat ((g.drop 17).take 2)
  if 1 ≤ y && y ≤ 9999 && 1 ≤ mo && mo ≤ 12 && 1 ≤ d && d ≤ daysInMonth y mo &&
     h ≤ 23 && mi ≤ 59 && s ≤ 59 then
    some ⟨y, mo, d, h, mi, s⟩
  else none

def hexDigitChar (n : Nat) : Char :=
  match n with
  | 0 => '0' | 1 => '1' | 2 => '2' | 3 => '3' | 4 => '4'
  | 5 => '5' | 6 => '6' | 7 => '7' | 8 => '8' | 9 => '9'
  | 10 => 'A' | 11 => 'B' | 12 => 'C' | 13 => 'D' | 14 => 'E' | _ => 'F'

/-- Python `f"{p:02X}"` for `p < 256`: two uppercase hex digits.  Every value
formatted by convert_log (two-digit year, month, day, hour, minute, second)
is below 256, where this agrees with the Python format. -/
def toHex2 (n : Nat) : String := ⟨[hexDigitChar (n / 16), hexDigitChar (n % 16)]⟩

/-- The SC_TIME_SET emission of convert_log (src/fetch_convert.py lines
73-78): shift the hour by +16 modulo 24 with `replace(hour=...)`, take the
two-digit year, and format the six fields as two-digit uppercase hex. -/
def scTimeSetRow (last_wait : String) (d : PyDateTime) : String :=
  let shifted_hour := (d.hour + 16) % 24
  let shifted := { d with hour := shifted_hour }
  let parts := [shifted.year % 100, shifted.month, shifted.day,
                shifted.hour, shifted.minute, shifted.second]
  let hex_params := String.intercalate "," (parts.map toHex2)
  last_wait ++ "\t3E\t(03)(01) SC_TIME_SET\t" ++ hex_params

/-- One iteration of the convert_log line loop (src/fetch_convert.py lines
64-94): update `last_wait` from the first SC_WAIT_A match on the line, then
emit an SC_TIME_SET row when an SC_DATE match parses, then emit a command
row when the line parses as a command.  The console/warning channel of
convert_log (which depends on the wall clock and never feeds back into the
emitted rows) is not modelled. -/
def lineRows (last_wait : Option String) (raw : String) : Option String × List String :=
  let w := match searchWait raw.data with
    | some v => some v
    | none => last_wait
  let timeRows := match w, searchScDate raw.data with
    | some wv, some g =>
      match toDateTime g with
      | some d => [scTimeSetRow wv d]
      | none => []
    | _, _ => []
  let cmdRows := match parse_command_line raw, w with
    | some (cmd_id, descriptor, params), some wv =>
      [wv ++ "\t" ++ cmd_id ++ "\t" ++ descriptor ++ "\t" ++ params]
    | _, _ => []
  (w, timeRows ++ cmdRows)

/-- The row-emitting loop of convert_log over the split lines, threading the
`last_wait` state. -/
def convertRows (last_wait : Option String) : List String → List String
  | [] => []
  | l :: ls =>
    let wr := lineRows last_wait l
    wr.2 ++ convertRows wr.1 ls

/-- Python `str.splitlines()` restricted to `\n`, `\r\n` and `\r`
terminators (the Unicode-only line breaks never occur in these inputs). -/
def splitlinesGo : List Char → List Char → List String
  | [], acc => if acc.isEmpty then [] else [⟨acc.reverse⟩]
  | '\r' :: '\n' :: rest, acc => (⟨acc.reverse⟩ : String) :: splitlinesGo rest []
  | '\n' :: rest, acc => (⟨acc.reverse⟩ : String) :: splitlinesGo rest []
  | '\r' :: rest, acc => (⟨acc.reverse⟩ : String) :: splitlinesGo rest []
  | c :: rest, acc => splitlinesGo rest (c :: acc)

def py_splitlines (s : String) : List String := splitlinesGo s.data []

/-- The rows emitted by `convert_log` (src/fetch_convert.py lines 55-97). -/
def convert_log_rows (file_contents : String) : List String :=
  convertRows none (py_splitlines file_contents)

/-- Model of `convert_log` restricted to its first return component: the
emitted rows joined with newlines. -/
def convert_log (file_contents : String) : String :=
  String.intercalate "\n" (convert_log_rows file_contents)

example : parse_command_line "0x01 02 #CMD" = some ("01", "(02) CMD", "") := by rfl

example :
    convertRows none ["#SC_WAIT_A=5", "0x01 02 #CMD"] = ["5\t01\t(02) CMD\t"] := by rfl

example :
    lineRows (some "7") "#SC_DATE=2024/05/06 10:20:30" =
      (some "7", ["7\t3E\t(03)(01) SC_TIME_SET\t18,05,06,02,14,1E"]) := by rfl

-- ==========================================================================
-- General scanning lemmas
-- ==========================================================================

theorem string_ext {s t : String} (h : s.data = t.data) : s = t := by
  cases s
  cases t
  exact congrArg String.mk h

theorem hex_not_space {c : Char} (h : isHexChar c = true) : isSpaceChar c = false := by
  by_contra hc
  rw [Bool.not_eq_false] at hc
  unfold isSpaceChar at hc
  simp only [Bool.or_eq_true, decide_eq_true_eq] at hc
  rcases hc with ((((hc | hc) | hc) | hc) | hc) | hc <;> subst hc <;>
    exact absurd h (by decide)

theorem takeWhile_append_of_all {p : Char → Bool} (xs ys : List Char)
    (h : ∀ c ∈ xs, p c = true) :
    (xs ++ ys).takeWhile p = xs ++ ys.takeWhile p := by
  induction xs with
  | nil => simp
  | cons a t ih =>
    simp [List.takeWhile_cons, h a (by simp), ih (fun c hc => h c (by simp [hc]))]

theorem dropWhile_append_of_all {p : Char → Bool} (xs ys : List Char)
    (h : ∀ c ∈ xs, p c = true) :
    (xs ++ ys).dropWhile p = ys.dropWhile p := by
  induction xs with
  | nil => simp
  | cons a t ih =>
    simp [List.dropWhile_cons, h a (by simp), ih (fun c hc => h c (by simp [hc]))]

-- ==========================================================================
-- C9 : the SC_TIME_SET hour shift
-- ==========================================================================

/-- C9: in the SC_TIME_SET row only the hour of the parsed SC_DATE is
changed, to (hour + 16) mod 24; year mod 100, month, day, minute and second
are passed through unchanged.  `lineRows` emits exactly this row for a line
whose only content is a parsing SC_DATE, and for every hour from 8 to 23 the
shift wraps past midnight (hour + 16 is at least 24) while, by the first
part, the day field is untouched. -/
theorem c9_sc_time_set :
    (∀ (wv : String) (d : PyDateTime),
      scTimeSetRow wv d =
        wv ++ "\t3E\t(03)(01) SC_TIME_SET\t" ++
          String.intercalate ","
            ([d.year % 100, d.month, d.day, (d.hour + 16) % 24,
              d.minute, d.second].map toHex2)) ∧
    (∀ (wv : String) (line : String) (g : List Char) (d : PyDateTime),
      searchScDate line.data = some g →
      toDateTime g = some d →
      searchWait line.data = none →
      parse_command_line line = none →
      lineRows (some wv) line = (some wv, [scTimeSetRow wv d])) ∧
    (∀ h : Nat, 8 ≤ h → h ≤ 23 → 24 ≤ h + 16 ∧ (h + 16) % 24 = h - 8) := by
  refine ⟨?_, ?_, ?_⟩
  · intro wv d
    rfl
  · intro wv line g d hg hd hw hp
    simp [lineRows, hw, hg, hd, hp]
  · intro h h8 h23
    omega

/-- Witness for C9 at a concrete SC_DATE line and hour 10. -/
theorem c9_sc_time_set_witness :
    lineRows (some "7") "#SC_DATE=2024/05/06 10:20:30" =
      (some "7", [scTimeSetRow "7" ⟨2024, 5, 6, 10, 20, 30⟩]) ∧
    (24 ≤ 10 + 16 ∧ (10 + 16) % 24 = 10 - 8) :=
  ⟨c9_sc_time_set.2.1 "7" "#SC_DATE=2024/05/06 10:20:30"
      "2024/05/06 10:20:30".data ⟨2024, 5, 6, 10, 20, 30⟩ rfl rfl rfl rfl,
   c9_sc_time_set.2.2 10 (by decide) (by decide)⟩

-- ==========================================================================
-- C2 : statefulness of the convert_log line loop
-- ==========================================================================

/-- C2 (counterexample): no stateless per-line function reproduces the rows
of convert_log.  The line "0x01 02 #CMD" yields a row exactly when an
earlier line set SC_WAIT_A, and the row embeds the carried wait value, so
the rows attributable to a line are not a function of the line text
alone. -/
theorem c2_counterexample :
    ¬ ∃ g : String → List String,
        ∀ lines : List String, convertRows none lines = (lines.map g).flatten := by
  rintro ⟨g, h⟩
  have hA := h ["#SC_WAIT_A=5", "0x01 02 #CMD"]
  have hC := h ["0x01 02 #CMD"]
  have hD := h ["#SC_WAIT_A=5"]
  rw [show convertRows none ["#SC_WAIT_A=5", "0x01 02 #CMD"]
      = ["5\t01\t(02) CMD\t"] from rfl] at hA
  rw [show convertRows none ["0x01 02 #CMD"] = ([] : List String) from rfl] at hC
  rw [show convertRows none ["#SC_WAIT_A=5"] = ([] : List String) from rfl] at hD
  have hC' : g "0x01 02 #CMD" = [] := by simpa using hC.symm
  have hD' : g "#SC_WAIT_A=5" = [] := by simpa using hD.symm
  simp [hC', hD'] at hA

/-- C2 (amended): convert_log's loop is a single pass whose only cross-line
state is the most recent SC_WAIT_A value: the emitted rows equal a left fold
of the per-line function `lineRows` threading just that optional wait
value. -/
theorem c2_amended_single_pass (contents : String) :
    convert_log_rows contents =
      ((py_splitlines contents).foldl
        (fun acc l => ((lineRows acc.1 l).1, acc.2 ++ (lineRows acc.1 l).2))
        ((none : Option String), ([] : List String))).2 := by
  unfold convert_log_rows
  suffices h : ∀ (ls : List String) (w : Option String) (acc : List String),
      (ls.foldl (fun acc l => ((lineRows acc.1 l).1, acc.2 ++ (lineRows acc.1 l).2))
        (w, acc)).2 = acc ++ convertRows w ls by
    rw [h (py_splitlines contents) none []]
    rfl
  intro ls
  induction ls with
  | nil =>
    intro w acc
    simp [convertRows]
  | cons l t ih =>
    intro w acc
    simp only [List.foldl_cons, convertRows]
    rw [ih]
    simp [List.append_assoc]

-- ==========================================================================
-- C8 : the None cases of parse_command_line
-- ==========================================================================

/-- Declarative reading of the header condition of parse_command_line: the
line begins, after optional whitespace, with `0x` or `0X`, a 2-hex-digit
command id, whitespace, and at least two further hex digits (the greedy
`{2,4}` code group matches exactly when at least two hex digits follow). -/
def beginsWithCmd (cs : List Char) : Prop :=
  ∃ (w : List Char) (x h1 h2 : Char) (sp : List Char) (c1 c2 : Char) (rest : List Char),
    cs = w ++ '0' :: x :: h1 :: h2 :: (sp ++ c1 :: c2 :: rest) ∧
    (∀ c ∈ w, isSpaceChar c = true) ∧ (x = 'x' ∨ x = 'X') ∧
    isHexChar h1 = true ∧ isHexChar h2 = true ∧
    sp ≠ [] ∧ (∀ c ∈ sp, isSpaceChar c = true) ∧
    isHexChar c1 = true ∧ isHexChar c2 = true

theorem matchHeader_cons {cs : List Char} {c0 x h1 h2 : Char} {t2 : List Char}
    (hb : cs.dropWhile isSpaceChar = c0 :: x :: h1 :: h2 :: t2) :
    matchHeader cs =
      (if (c0 = '0' && (x = 'x' || x = 'X') && isHexChar h1 && isHexChar h2) then
        if (t2.takeWhile isSpaceChar).isEmpty then none
        else
          if ((t2.dropWhile isSpaceChar).takeWhile isHexChar).length < 2 then none
          else
            some ((⟨[h1.toUpper, h2.toUpper]⟩ : String),
                  (⟨(((t2.dropWhile isSpaceChar).takeWhile isHexChar).take 4).map
                      Char.toUpper⟩ : String),
                  (t2.dropWhile isSpaceChar).drop
                    (((t2.dropWhile isSpaceChar).takeWhile isHexChar).take 4).length)
      else none) := by
  unfold matchHeader
  rw [hb]

theorem matchHeader_shape {cs : List Char} {cid code : String} {rest : List Char}
    (h : matchHeader cs = some (cid, code, rest)) :
    ∃ x h1 h2 t2,
      cs.dropWhile isSpaceChar = '0' :: x :: h1 :: h2 :: t2 ∧
      (x = 'x' ∨ x = 'X') ∧
      isHexChar h1 = true ∧ isHexChar h2 = true ∧
      (t2.takeWhile isSpaceChar).isEmpty = false ∧
      2 ≤ ((t2.dropWhile isSpaceChar).takeWhile isHexChar).length ∧
      cid = ⟨[h1.toUpper, h2.toUpper]⟩ ∧
      code = ⟨((((t2.dropWhile isSpaceChar).takeWhile isHexChar).take 4).map Char.toUpper)⟩ ∧
      rest = (t2.dropWhile isSpaceChar).drop
        (((t2.dropWhile isSpaceChar).takeWhile isHexChar).take 4).length := by
  cases hb : cs.dropWhile isSpaceChar with
  | nil =>
    have hn : matchHeader cs = none := by unfold matchHeader; rw [hb]
    rw [hn] at h; exact absurd h (by simp)
  | cons c0 t0 =>
  cases t0 with
  | nil =>
    have hn : matchHeader cs = none := by unfold matchHeader; rw [hb]
    rw [hn] at h; exact absurd h (by simp)
  | cons x t1 =>
  cases t1 with
  | nil =>
    have hn : matchHeader cs = none := by unfold matchHeader; rw [hb]
    rw [hn] at h; exact absurd h (by simp)
  | cons h1 t1' =>
  cases t1' with
  | nil =>
    have hn : matchHeader cs = none := by unfold matchHeader; rw [hb]
    rw [hn] at h; exact absurd h (by simp)
  | cons h2 t2 =>
    rw [matchHeader_cons hb] at h
    by_cases hg : (c0 = '0' && (x = 'x' || x = 'X') && isHexChar h1 && isHexChar h2) = true
    · rw [if_pos hg] at h
      by_cases hsp : (t2.takeWhile isSpaceChar).isEmpty = true
      · rw [if_pos hsp] at h
        exact absurd h (by simp)
      · rw [if_neg hsp] at h
        by_cases hrun : ((t2.dropWhile isSpaceChar).takeWhile isHexChar).length < 2
        · rw [if_pos hrun] at h
          exact absurd h (by simp)
        · rw [if_neg hrun] at h
          simp only [Option.some.injEq, Prod.mk.injEq] at h
          obtain ⟨hcid, hcode, hrest⟩ := h
          simp only [Bool.and_eq_true, Bool.or_eq_true, decide_eq_true_eq] at hg
          obtain ⟨⟨⟨hc0, hx⟩, hh1⟩, hh2⟩ := hg
          subst hc0
          exact ⟨x, h1, h2, t2, rfl, hx, hh1, hh2,
                 Bool.not_eq_true _ ▸ hsp, by omega, hcid.symm, hcode.symm, hrest.symm⟩
    · rw [if_neg hg] at h
      exact absurd h (by simp)

theorem matchHeader_isSome_of_shape {w : List Char} {x h1 h2 : Char} {sp : List Char}
    {c1 c2 : Char} {rest : List Char}
    (hw : ∀ c ∈ w, isSpaceChar c = true) (hx : x = 'x' ∨ x = 'X')
    (hh1 : isHexChar h1 = true) (hh2 : isHexChar h2 = true)
    (hsp : sp ≠ []) (hsps : ∀ c ∈ sp, isSpaceChar c = true)
    (hc1 : isHexChar c1 = true) (hc2 : isHexChar c2 = true) :
    (matchHeader (w ++ '0' :: x :: h1 :: h2 :: (sp ++ c1 :: c2 :: rest))).isSome = true := by
  have hdrop : (w ++ '0' :: x :: h1 :: h2 :: (sp ++ c1 :: c2 :: rest)).dropWhile isSpaceChar
      = '0' :: x :: h1 :: h2 :: (sp ++ c1 :: c2 :: rest) := by
    rw [dropWhile_append_of_all w _ hw, List.dropWhile_cons]
    simp [show isSpaceChar '0' = false from by decide]
  rw [matchHeader_cons hdrop]
  have hguard : ('0' = '0' && (x = 'x' || x = 'X') && isHexChar h1 && isHexChar h2) = true := by
    rcases hx with hx | hx <;> subst hx <;> simp [hh1, hh2]
  rw [if_pos hguard]
  have htake : (sp ++ c1 :: c2 :: rest).takeWhile isSpaceChar = sp := by
    rw [takeWhile_append_of_all sp _ hsps, List.takeWhile_cons, hex_not_space hc1]
    simp
  have hdrop2 : (sp ++ c1 :: c2 :: rest).dropWhile isSpaceChar = c1 :: c2 :: rest := by
    rw [dropWhile_append_of_all sp _ hsps, List.dropWhile_cons, hex_not_space hc1]
    simp
  have hspe : sp.isEmpty = false := by
    cases sp with
    | nil => exact absurd rfl hsp
    | cons a t => rfl
  rw [htake, if_neg (by rw [hspe]; simp)]
  have hrun : (c1 :: c2 :: rest).takeWhile isHexChar
      = c1 :: c2 :: rest.takeWhile isHexChar := by
    rw [List.takeWhile_cons, hc1, List.takeWhile_cons, hc2]
    simp
  rw [hdrop2, if_neg (by rw [hrun]; simp)]
  rfl

theorem parse_command_line_some {line : String} {cid code : String} {rest : List Char}
    (hm : matchHeader line.data = some (cid, code, rest)) :
    parse_command_line line =
      match findDesc (findTokens rest) with
      | none => none
      | some desc =>
        some (cid,
          (if code.length = 4 then
              "(" ++ (⟨code.data.take 2⟩ : String) ++ ")(" ++
                (⟨code.data.drop 2⟩ : String) ++ ")"
            else "(" ++ code ++ ")") ++ " " ++ desc,
          String.intercalate ","
            ((hexPairs (splitBeforeFirst rest ('#' :: desc.data))).map
              (fun p => (⟨p.map Char.toUpper⟩ : String)))) := by
  unfold parse_command_line
  rw [hm]

/-- C8: parse_command_line returns none in exactly two cases — when the
header regex does not match (equivalently, the line does not begin with
optional whitespace, `0x`/`0X`, two hex digits, whitespace and at least two
hex digits), and when the remainder holds no `#`-token other than ones
starting with SC_WAIT_A or SC_DATE; the docstring names only the first case,
and the line "0x01 02" witnesses the second (header matches, result still
none).  In every other case a triple is returned. -/
theorem c8_parse_none_exactly :
    (∀ line : String,
      parse_command_line line = none ↔
        (matchHeader line.data = none ∨
         ∃ cid code rest, matchHeader line.data = some (cid, code, rest) ∧
           findDesc (findTokens rest) = none)) ∧
    (∀ cs : List Char, (matchHeader cs).isSome = true ↔ beginsWithCmd cs) ∧
    (matchHeader "0x01 02".data).isSome = true ∧
    parse_command_line "0x01 02" = none := by
  refine ⟨?_, ?_, by rfl, by rfl⟩
  · intro line
    cases hm : matchHeader line.data with
    | none =>
      have hp : parse_command_line line = none := by
        unfold parse_command_line; rw [hm]
      exact ⟨fun _ => Or.inl rfl, fun _ => hp⟩
    | some p =>
      obtain ⟨cid, code, rest⟩ := p
      cases hd : findDesc (findTokens rest) with
      | none =>
        have hpn : parse_command_line line = none := by
          rw [parse_command_line_some hm, hd]
        exact ⟨fun _ => Or.inr ⟨cid, code, rest, rfl, hd⟩, fun _ => hpn⟩
      | some d =>
        have hps : parse_command_line line ≠ none := by
          rw [parse_command_line_some hm, hd]
          simp
        constructor
        · intro hc
          exact absurd hc hps
        · rintro (hc | ⟨cid₂, code₂, rest₂, hm₂, hd₂⟩)
          · exact absurd hc (by simp)
          · have htup := Option.some.inj hm₂
            have hrest : rest = rest₂ := congrArg (fun q => q.2.2) htup
            rw [← hrest, hd] at hd₂
            exact absurd hd₂ (by simp)
  · intro cs
    constructor
    · intro hs
      obtain ⟨p, hp⟩ := Option.isSome_iff_exists.mp hs
      obtain ⟨cid, code, rest⟩ := p
      obtain ⟨x, h1, h2, t2, hb, hx, hh1, hh2, hspe, hrun, _, _, _⟩ := matchHeader_shape hp
      have hcs : cs = cs.takeWhile isSpaceChar ++ ('0' :: x :: h1 :: h2 :: t2) := by
        rw [← hb, List.takeWhile_append_dropWhile]
      have ht2 : t2 = t2.takeWhile isSpaceChar ++ t2.dropWhile isSpaceChar :=
        (List.takeWhile_append_dropWhile isSpaceChar t2).symm
      have htl : t2.dropWhile isSpaceChar =
          (t2.dropWhile isSpaceChar).takeWhile isHexChar ++
          (t2.dropWhile isSpaceChar).dropWhile isHexChar :=
        (List.takeWhile_append_dropWhile isHexChar (t2.dropWhile isSpaceChar)).symm
      cases hrl : (t2.dropWhile isSpaceChar).takeWhile isHexChar with
      | nil => rw [hrl] at hrun; simp at hrun
      | cons r1 rr =>
        cases rr with
        | nil => rw [hrl] at hrun; simp at hrun
        | cons r2 rr' =>
          refine ⟨cs.takeWhile isSpaceChar, x, h1, h2, t2.takeWhile isSpaceChar,
                  r1, r2, rr' ++ (t2.dropWhile isSpaceChar).dropWhile isHexChar, ?_,
                  fun c hc => List.mem_takeWhile_imp hc, hx, hh1, hh2, ?_,
                  fun c hc => List.mem_takeWhile_imp hc, ?_, ?_⟩
          · conv_lhs => rw [hcs]
            congr 1
            simp only [List.cons.injEq, true_and]
            conv_lhs => rw [ht2]
            congr 1
            conv_lhs => rw [htl, hrl]
            simp
          · intro hc
            rw [hc] at hspe
            simp at hspe
          · have hmem : r1 ∈ (t2.dropWhile isSpaceChar).takeWhile isHexChar := by
              rw [hrl]; simp
            exact List.mem_takeWhile_imp hmem
          · have hmem : r2 ∈ (t2.dropWhile isSpaceChar).takeWhile isHexChar := by
              rw [hrl]; simp
            exact List.mem_takeWhile_imp hmem
    · rintro ⟨w, x, h1, h2, sp, c1, c2, rest, hcs, hw, hx, hh1, hh2, hsp, hsps, hc1, hc2⟩
      rw [hcs]
      exact matchHeader_isSome_of_shape hw hx hh1 hh2 hsp hsps hc1 hc2

-- ==========================================================================
-- C3 : shape and wait provenance of the emitted rows
-- ==========================================================================

/-- The characters a tab-separated field may contain. -/
def notTab (c : Char) : Bool := !(c = '\t')

def tabFree (s : String) : Bool := s.data.all notTab

/-- The text before the first tab of a row. -/
def firstField (r : String) : String := ⟨r.data.takeWhile notTab⟩

/-- A row of exactly four tab-separated fields, none containing a tab. -/
def fourTabFields (r : String) : Prop :=
  ∃ f0 f1 f2 f3 : String,
    r = f0 ++ "\t" ++ f1 ++ "\t" ++ f2 ++ "\t" ++ f3 ∧
    tabFree f0 = true ∧ tabFree f1 = true ∧ tabFree f2 = true ∧ tabFree f3 = true

/-- The `last_wait` update a single line performs. -/
def waitStep (w : Option String) (l : String) : Option String :=
  match searchWait l.data with
  | some v => some v
  | none => w

theorem lineRows_eq (w : Option String) (l : String) :
    lineRows w l = (waitStep w l,
      (match waitStep w l, searchScDate l.data with
        | some wv, some g =>
          (match toDateTime g with
            | some d => [scTimeSetRow wv d]
            | none => [])
        | _, _ => []) ++
      (match parse_command_line l, waitStep w l with
        | some (cmd_id, descriptor, params), some wv =>
          [wv ++ "\t" ++ cmd_id ++ "\t" ++ descriptor ++ "\t" ++ params]
        | _, _ => [])) := rfl

/-- Spec-side reading of the wait state: scanning from the most recent line
backwards, the first line holding an SC_WAIT_A match supplies the value (the
first match on that line). -/
def lastWaitScan : List String → Option String
  | [] => none
  | l :: ls =>
    match lastWaitScan ls with
    | some v => some v
    | none => searchWait l.data

/-- The wait value in force for line `i` as the amended claim states it:
the first SC_WAIT_A capture on the most recent line at or before `i` that
has one. -/
def mostRecentWait (lines : List String) (i : Nat) : Option String :=
  lastWaitScan (lines.take (i + 1))

/-- The wait state `convert_log` carries into line `i`. -/
def waitBefore (lines : List String) (i : Nat) : Option String :=
  (lines.take i).foldl waitStep none

/-- The rows `convert_log` emits for line `i`. -/
def rowsOfLine (lines : List String) (i : Nat) : List String :=
  (lineRows (waitBefore lines i) (lines.getD i "")).2

/-- Claim-side scan: every SC_WAIT_A capture of the text, in reading order,
by non-overlapping leftmost matching. -/
def findAllWaitsF : Nat → List Char → List String
  | 0, _ => []
  | _ + 1, [] => []
  | fuel + 1, c :: rest =>
    if startsWithL (c :: rest) "#SC_WAIT_A=".data then
      let ds := ((c :: rest).drop 11).takeWhile Char.isDigit
      if ds.isEmpty then findAllWaitsF fuel rest
      else (⟨ds⟩ : String) :: findAllWaitsF fuel (((c :: rest).drop 11).drop ds.length)
    else findAllWaitsF fuel rest

def findAllWaits (cs : List Char) : List String := findAllWaitsF cs.length cs

-- Digit and tab-freeness facts about the captured values.

theorem searchWait_digits :
    ∀ (cs : List Char) (v : String), searchWait cs = some v →
      v.data.all Char.isDigit = true := by
  intro cs
  induction cs with
  | nil => intro v h; exact absurd h (by simp [searchWait])
  | cons c rest ih =>
    intro v h
    unfold searchWait at h
    by_cases hs : startsWithL (c :: rest) "#SC_WAIT_A=".data = true
    · rw [if_pos hs] at h
      by_cases he : (((c :: rest).drop 11).takeWhile Char.isDigit).isEmpty = true
      · rw [if_pos he] at h
        exact ih v h
      · rw [if_neg he] at h
        have hv := Option.some.inj h
        rw [← hv]
        rw [List.all_eq_true]
        intro x hx
        exact List.mem_takeWhile_imp hx
    · rw [if_neg hs] at h
      exact ih v h

theorem digits_tabFree {v : String} (h : v.data.all Char.isDigit = true) :
    tabFree v = true := by
  rw [tabFree, List.all_eq_true]
  intro c hc
  have hd := List.all_eq_true.mp h c hc
  unfold notTab
  simp only [Bool.not_eq_true', decide_eq_false_iff_not]
  intro hceq
  rw [hceq] at hd
  exact absurd hd (by decide)

theorem waitStep_digits {w : Option String} {l : String} {v : String}
    (hw : ∀ u, w = some u → u.data.all Char.isDigit = true)
    (h : waitStep w l = some v) : v.data.all Char.isDigit = true := by
  unfold waitStep at h
  cases hs : searchWait l.data with
  | none => rw [hs] at h; exact hw v h
  | some u =>
    rw [hs] at h
    have := Option.some.inj h
    rw [← this]
    exact searchWait_digits l.data u hs

theorem foldl_waitStep_digits :
    ∀ (ls : List String) (w : Option String),
      (∀ u, w = some u → u.data.all Char.isDigit = true) →
      ∀ v, ls.foldl waitStep w = some v → v.data.all Char.isDigit = true := by
  intro ls
  induction ls with
  | nil => intro w hw v h; exact hw v h
  | cons l t ih =>
    intro w hw v h
    rw [List.foldl_cons] at h
    exact ih (waitStep w l) (fun u hu => waitStep_digits hw hu) v h

/-- The forward fold of wait updates equals the backward scan for the most
recent match. -/
theorem foldl_waitStep_eq_lastWaitScan :
    ∀ (ls : List String) (w : Option String),
      ls.foldl waitStep w =
        match lastWaitScan ls with
        | some v => some v
        | none => w := by
  intro ls
  induction ls with
  | nil => intro w; rfl
  | cons l t ih =>
    intro w
    rw [List.foldl_cons, ih (waitStep w l),
        show lastWaitScan (l :: t) = (match lastWaitScan t with
          | some v => some v
          | none => searchWait l.data) from rfl]
    cases lastWaitScan t with
    | some v => rfl
    | none =>
      show waitStep w l = _
      unfold waitStep
      cases searchWait l.data <;> rfl

-- Tab-freeness of the strings the converter builds.

theorem char_toNat_ofNat {m : Nat} (h : m < 55296) : (Char.ofNat m).toNat = m := by
  unfold Char.ofNat
  rw [dif_pos (Or.inl h)]
  rfl

theorem toUpper_ne_tab {c : Char} (h : c ≠ '\t') : c.toUpper ≠ '\t' := by
  intro heq
  unfold Char.toUpper at heq
  by_cases hc : c.toNat ≥ 97 ∧ c.toNat ≤ 122
  · rw [if_pos hc] at heq
    have h2 : (Char.ofNat (c.toNat - 32)).toNat = c.toNat - 32 := char_toNat_ofNat (by omega)
    rw [heq] at h2
    have h3 : ('\t').toNat = 9 := by decide
    omega
  · rw [if_neg hc] at heq
    exact h heq

theorem hexChar_ne_tab {c : Char} (h : isHexChar c = true) : c ≠ '\t' := by
  intro heq
  rw [heq] at h
  exact absurd h (by decide)

theorem notTab_eq_true {c : Char} (h : c ≠ '\t') : notTab c = true := by
  unfold notTab
  simp [h]

theorem tabFree_append {a b : String} (ha : tabFree a = true) (hb : tabFree b = true) :
    tabFree (a ++ b) = true := by
  unfold tabFree at *
  rw [String.data_append, List.all_append, ha, hb]
  rfl

theorem tabFree_mk {l : List Char} (h : ∀ c ∈ l, notTab c = true) :
    tabFree (⟨l⟩ : String) = true := List.all_eq_true.mpr h

theorem intercalate_go_tabFree :
    ∀ (as : List String) (acc : String), tabFree acc = true →
      (∀ x ∈ as, tabFree x = true) →
      tabFree (String.intercalate.go acc "," as) = true := by
  intro as
  induction as with
  | nil => intro acc hacc _; exact hacc
  | cons a t ih =>
    intro acc hacc hall
    show tabFree (String.intercalate.go (acc ++ "," ++ a) "," t) = true
    exact ih _ (tabFree_append (tabFree_append hacc (by decide)) (hall a (by simp)))
      (fun x hx => hall x (by simp [hx]))

theorem intercalate_tabFree {l : List String}
    (h : ∀ x ∈ l, tabFree x = true) :
    tabFree (String.intercalate "," l) = true := by
  cases l with
  | nil => decide
  | cons a t =>
    show tabFree (String.intercalate.go a "," t) = true
    exact intercalate_go_tabFree t a (h a (by simp)) (fun x hx => h x (by simp [hx]))

theorem hexDigitChar_notTab (n : Nat) : notTab (hexDigitChar n) = true := by
  unfold hexDigitChar
  split <;> decide

theorem toHex2_tabFree (n : Nat) : tabFree (toHex2 n) = true := by
  show (notTab (hexDigitChar (n / 16)) && (notTab (hexDigitChar (n % 16)) && true)) = true
  rw [hexDigitChar_notTab, hexDigitChar_notTab]
  rfl

theorem findTokensF_tokenChars :
    ∀ (fuel : Nat) (cs : List Char) (t : String),
      t ∈ findTokensF fuel cs → t.data.all isTokenChar = true := by
  intro fuel
  induction fuel with
  | zero => intro cs t ht; exact absurd ht (by simp [findTokensF])
  | succ n ih =>
    intro cs t ht
    cases cs with
    | nil => exact absurd ht (by simp [findTokensF])
    | cons c rest =>
      rw [show findTokensF (n + 1) (c :: rest) = (if c = '#' then
            (if (rest.takeWhile isTokenChar).isEmpty then findTokensF n rest
             else (⟨rest.takeWhile isTokenChar⟩ : String) ::
               findTokensF n (rest.drop (rest.takeWhile isTokenChar).length))
          else findTokensF n rest) from rfl] at ht
      by_cases hc : c = '#'
      · rw [if_pos hc] at ht
        by_cases he : (rest.takeWhile isTokenChar).isEmpty = true
        · rw [if_pos he] at ht
          exact ih rest t ht
        · rw [if_neg he] at ht
          rcases List.mem_cons.mp ht with h1 | h2
          · rw [h1]
            exact List.all_eq_true.mpr (fun c hc => List.mem_takeWhile_imp hc)
          · exact ih _ t h2
      · rw [if_neg hc] at ht
        exact ih rest t ht

theorem findDesc_mem : ∀ (ts : List String) (d : String), findDesc ts = some d → d ∈ ts := by
  intro ts
  induction ts with
  | nil => intro d h; exact absurd h (by simp [findDesc])
  | cons t ts ih =>
    intro d h
    unfold findDesc at h
    by_cases hs : (startsWithL t.data "SC_WAIT_A".data ||
        startsWithL t.data "SC_DATE".data) = true
    · rw [if_pos hs] at h
      exact List.mem_cons_of_mem t (ih d h)
    · rw [if_neg hs] at h
      have heq := Option.some.inj h
      rw [← heq]
      exact List.mem_cons_self t ts

theorem hexPairs_hex :
    ∀ (n : Nat) (l : List Char), l.length ≤ n →
      ∀ p ∈ hexPairs l, p.all isHexChar = true := by
  intro n
  induction n with
  | zero =>
    intro l hl p hp
    have hnil : l = [] := List.eq_nil_of_length_eq_zero (Nat.le_zero.mp hl)
    rw [hnil] at hp
    exact absurd hp (by simp [hexPairs])
  | succ n ih =>
    intro l hl p hp
    cases l with
    | nil => exact absurd hp (by simp [hexPairs])
    | cons a t =>
      cases t with
      | nil => exact absurd hp (by simp [hexPairs])
      | cons b rest =>
        rw [show hexPairs (a :: b :: rest) = (if isHexChar a && isHexChar b
              then [a, b] :: hexPairs rest else hexPairs (b :: rest)) from rfl] at hp
        by_cases hab : (isHexChar a && isHexChar b) = true
        · rw [if_pos hab] at hp
          rcases List.mem_cons.mp hp with h1 | h2
          · rw [h1]
            simp only [List.all_cons, List.all_nil, Bool.and_true]
            exact hab
          · refine ih rest ?_ p h2
            simp only [List.length_cons] at hl
            omega
        · rw [if_neg hab] at hp
          refine ih (b :: rest) ?_ p hp
          simp only [List.length_cons] at hl ⊢
          omega

theorem matchHeader_tabFree {cs : List Char} {cid code : String} {rest : List Char}
    (h : matchHeader cs = some (cid, code, rest)) :
    tabFree cid = true ∧ tabFree code = true := by
  obtain ⟨x, h1, h2, t2, _, _, hh1, hh2, _, _, hcid, hcode, _⟩ := matchHeader_shape h
  constructor
  · rw [hcid]
    refine tabFree_mk ?_
    intro c hc
    simp only [List.mem_cons, List.not_mem_nil, or_false] at hc
    rcases hc with hc | hc
    · rw [hc]
      exact notTab_eq_true (toUpper_ne_tab (hexChar_ne_tab hh1))
    · rw [hc]
      exact notTab_eq_true (toUpper_ne_tab (hexChar_ne_tab hh2))
  · rw [hcode]
    refine tabFree_mk ?_
    intro c hc
    simp only [List.mem_map] at hc
    obtain ⟨u, hu, hcu⟩ := hc
    have hhex : isHexChar u = true :=
      List.mem_takeWhile_imp (List.mem_of_mem_take hu)
    rw [← hcu]
    exact notTab_eq_true (toUpper_ne_tab (hexChar_ne_tab hhex))

theorem parse_command_line_tabFree {line : String} {cid descr params : String}
    (h : parse_command_line line = some (cid, descr, params)) :
    tabFree cid = true ∧ tabFree descr = true ∧ tabFree params = true := by
  cases hm : matchHeader line.data with
  | none =>
    have hn : parse_command_line line = none := by unfold parse_command_line; rw [hm]
    rw [hn] at h
    exact absurd h (by simp)
  | some p =>
    obtain ⟨cid₀, code, rest⟩ := p
    rw [parse_command_line_some hm] at h
    cases hd : findDesc (findTokens rest) with
    | none => rw [hd] at h; exact absurd h (by simp)
    | some desc =>
      rw [hd] at h
      simp only [Option.some.injEq, Prod.mk.injEq] at h
      obtain ⟨hcid, hdescr, hparams⟩ := h
      obtain ⟨hc1, hc2⟩ := matchHeader_tabFree hm
      have hdesc_chars : desc.data.all isTokenChar = true :=
        findTokensF_tokenChars rest.length rest desc (findDesc_mem _ desc hd)
      have hdesc : tabFree desc = true := by
        refine List.all_eq_true.mpr ?_
        intro c hc
        have htc := List.all_eq_true.mp hdesc_chars c hc
        refine notTab_eq_true ?_
        intro hceq
        rw [hceq] at htc
        exact absurd htc (by decide)
      refine ⟨hcid ▸ hc1, ?_, ?_⟩
      · rw [← hdescr]
        refine tabFree_append (tabFree_append ?_ (by decide)) hdesc
        by_cases h4 : code.length = 4
        · rw [if_pos h4]
          refine tabFree_append (tabFree_append (tabFree_append
            (tabFree_append (by decide) ?_) (by decide)) ?_) (by decide)
          · refine tabFree_mk ?_
            intro c hc
            exact List.all_eq_true.mp hc2 c (List.mem_of_mem_take hc)
          · refine tabFree_mk ?_
            intro c hc
            exact List.all_eq_true.mp hc2 c (List.mem_of_mem_drop hc)
        · rw [if_neg h4]
          exact tabFree_append (tabFree_append (by decide) hc2) (by decide)
      · rw [← hparams]
        refine intercalate_tabFree ?_
        intro x hx
        simp only [List.mem_map] at hx
        obtain ⟨pp, hpp, hxp⟩ := hx
        have hpphex := hexPairs_hex (splitBeforeFirst rest ('#' :: desc.data)).length _
          le_rfl pp hpp
        rw [← hxp]
        refine tabFree_mk ?_
        intro c hc
        simp only [List.mem_map] at hc
        obtain ⟨u, hu, hcu⟩ := hc
        rw [← hcu]
        exact notTab_eq_true (toUpper_ne_tab (hexChar_ne_tab (List.all_eq_true.mp hpphex u hu)))

-- Row membership characterizations.

/-- The SC_TIME_SET rows a line emits, given the updated wait state. -/
def timeRowsOf (w : Option String) (l : String) : List String :=
  match w, searchScDate l.data with
  | some wv, some g =>
    (match toDateTime g with
      | some d => [scTimeSetRow wv d]
      | none => [])
  | _, _ => []

/-- The command row a line emits, given the updated wait state. -/
def cmdRowsOf (w : Option String) (l : String) : List String :=
  match parse_command_line l, w with
  | some (cmd_id, descriptor, params), some wv =>
    [wv ++ "\t" ++ cmd_id ++ "\t" ++ descriptor ++ "\t" ++ params]
  | _, _ => []

theorem lineRows_split (w : Option String) (l : String) :
    lineRows w l = (waitStep w l,
      timeRowsOf (waitStep w l) l ++ cmdRowsOf (waitStep w l) l) := rfl

theorem timeRowsOf_mem {w : Option String} {l : String} {r : String}
    (h : r ∈ timeRowsOf w l) :
    ∃ wv g d, w = some wv ∧ searchScDate l.data = some g ∧
      toDateTime g = some d ∧ r = scTimeSetRow wv d := by
  cases hw : w with
  | none => rw [hw] at h; exact absurd h (by simp [timeRowsOf])
  | some wv =>
    rw [hw] at h
    cases hsd : searchScDate l.data with
    | none => exact absurd h (by simp [timeRowsOf, hsd])
    | some g =>
      cases htd : toDateTime g with
      | none => exact absurd h (by simp [timeRowsOf, hsd, htd])
      | some d =>
        simp only [timeRowsOf, hsd, htd, List.mem_singleton] at h
        exact ⟨wv, g, d, rfl, rfl, htd, h⟩

theorem cmdRowsOf_mem {w : Option String} {l : String} {r : String}
    (h : r ∈ cmdRowsOf w l) :
    ∃ wv cid descr params, w = some wv ∧
      parse_command_line l = some (cid, descr, params) ∧
      r = wv ++ "\t" ++ cid ++ "\t" ++ descr ++ "\t" ++ params := by
  cases hw : w with
  | none =>
    rw [hw] at h
    unfold cmdRowsOf at h
    cases hp : parse_command_line l with
    | none => rw [hp] at h; exact absurd h (by simp)
    | some trip =>
      obtain ⟨cid, descr, params⟩ := trip
      rw [hp] at h
      exact absurd h (by simp)
  | some wv =>
    rw [hw] at h
    unfold cmdRowsOf at h
    cases hp : parse_command_line l with
    | none => rw [hp] at h; exact absurd h (by simp)
    | some trip =>
      obtain ⟨cid, descr, params⟩ := trip
      rw [hp] at h
      simp only [List.mem_singleton] at h
      exact ⟨wv, cid, descr, params, rfl, rfl, h⟩

-- First fields and the four-field shape.

theorem takeWhile_notTab_prefix {v : List Char} (rest : List Char)
    (hv : ∀ c ∈ v, notTab c = true) :
    (v ++ '\t' :: rest).takeWhile notTab = v := by
  rw [takeWhile_append_of_all v _ hv, List.takeWhile_cons]
  have ht : notTab '\t' = false := by decide
  rw [ht]
  simp

theorem firstField_of_four {r f0 f1 f2 f3 : String}
    (h : r = f0 ++ "\t" ++ f1 ++ "\t" ++ f2 ++ "\t" ++ f3)
    (h0 : tabFree f0 = true) : firstField r = f0 := by
  subst h
  unfold firstField
  apply string_ext
  show ((f0 ++ "\t" ++ f1 ++ "\t" ++ f2 ++ "\t" ++ f3).data).takeWhile notTab = f0.data
  simp only [String.data_append, List.append_assoc,
    show ("\t" : String).data = ['\t'] from rfl, List.cons_append, List.nil_append]
  exact takeWhile_notTab_prefix _ (List.all_eq_true.mp h0)

theorem scTimeSetRow_four {wv : String} (d : PyDateTime) (hwv : tabFree wv = true) :
    fourTabFields (scTimeSetRow wv d) ∧ firstField (scTimeSetRow wv d) = wv := by
  have hhex : tabFree (String.intercalate ","
      ([(d.year % 100), d.month, d.day, ((d.hour + 16) % 24),
        d.minute, d.second].map toHex2)) = true := by
    refine intercalate_tabFree ?_
    intro x hx
    simp only [List.mem_map] at hx
    obtain ⟨n, _, hxn⟩ := hx
    rw [← hxn]
    exact toHex2_tabFree n
  have heq : scTimeSetRow wv d =
      wv ++ "\t" ++ "3E" ++ "\t" ++ "(03)(01) SC_TIME_SET" ++ "\t" ++
        String.intercalate ","
          ([(d.year % 100), d.month, d.day, ((d.hour + 16) % 24),
            d.minute, d.second].map toHex2) := by
    apply string_ext
    simp [scTimeSetRow, String.data_append]
  refine ⟨⟨wv, "3E", "(03)(01) SC_TIME_SET", _, heq, hwv, by decide, by decide, hhex⟩, ?_⟩
  exact firstField_of_four heq hwv

theorem cmdRow_four {wv cid descr params : String} (hwv : tabFree wv = true)
    (hc : tabFree cid = true) (hd : tabFree descr = true) (hp : tabFree params = true) :
    fourTabFields (wv ++ "\t" ++ cid ++ "\t" ++ descr ++ "\t" ++ params) ∧
    firstField (wv ++ "\t" ++ cid ++ "\t" ++ descr ++ "\t" ++ params) = wv :=
  ⟨⟨wv, cid, descr, params, rfl, hwv, hc, hd, hp⟩, firstField_of_four rfl hwv⟩

/-- Any row a line emits is a four-field row whose first field is the
updated wait value, which is a digit string. -/
theorem lineRows_mem_fields {w : Option String} {l : String}
    (hw : ∀ u, w = some u → u.data.all Char.isDigit = true) :
    ∀ r ∈ (lineRows w l).2,
      fourTabFields r ∧
      ∃ v, waitStep w l = some v ∧ firstField r = v ∧
        v.data.all Char.isDigit = true := by
  intro r hr
  rw [lineRows_split] at hr
  simp only [List.mem_append] at hr
  rcases hr with hr | hr
  · obtain ⟨wv, g, d, hwv, _, _, hrow⟩ := timeRowsOf_mem hr
    have hdig : wv.data.all Char.isDigit = true := waitStep_digits hw hwv
    have htf : tabFree wv = true := digits_tabFree hdig
    obtain ⟨hfour, hfirst⟩ := scTimeSetRow_four d htf
    exact ⟨hrow ▸ hfour, wv, hwv, hrow ▸ hfirst, hdig⟩
  · obtain ⟨wv, cid, descr, params, hwv, hp, hrow⟩ := cmdRowsOf_mem hr
    have hdig : wv.data.all Char.isDigit = true := waitStep_digits hw hwv
    have htf : tabFree wv = true := digits_tabFree hdig
    obtain ⟨htc, htd, htp⟩ := parse_command_line_tabFree hp
    obtain ⟨hfour, hfirst⟩ := cmdRow_four htf htc htd htp
    exact ⟨hrow ▸ hfour, wv, hwv, hrow ▸ hfirst, hdig⟩

/-- Every row the converter emits has the four-field shape. -/
theorem convertRows_fields :
    ∀ (lines : List String) (w : Option String),
      (∀ u, w = some u → u.data.all Char.isDigit = true) →
      ∀ r ∈ convertRows w lines, fourTabFields r := by
  intro lines
  induction lines with
  | nil => intro w _ r hr; exact absurd hr (by simp [convertRows])
  | cons l ls ih =>
    intro w hw r hr
    rw [show convertRows w (l :: ls)
        = (lineRows w l).2 ++ convertRows (waitStep w l) ls from rfl] at hr
    rcases List.mem_append.mp hr with hr | hr
    · exact (lineRows_mem_fields hw r hr).1
    · exact ih (waitStep w l) (fun u hu => waitStep_digits hw hu) r hr

/-- Attribution of rows to lines: the converter output is the concatenation
of the per-line row lists computed with the wait state of the preceding
lines. -/
theorem convertRows_flatten :
    ∀ (lines : List String) (w : Option String),
      convertRows w lines = ((List.range lines.length).map
        (fun i => (lineRows ((lines.take i).foldl waitStep w) (lines.getD i "")).2)).flatten := by
  intro lines
  induction lines with
  | nil => intro w; rfl
  | cons l ls ih =>
    intro w
    rw [show convertRows w (l :: ls)
        = (lineRows w l).2 ++ convertRows (waitStep w l) ls from rfl]
    rw [ih (waitStep w l), List.length_cons, List.range_succ_eq_map]
    simp only [List.map_cons, List.flatten_cons, List.map_map]
    congr 1

theorem take_succ_getD {α : Type} (d : α) :
    ∀ (l : List α) (i : Nat), i < l.length →
      l.take (i + 1) = l.take i ++ [l.getD i d] := by
  intro l
  induction l with
  | nil => intro i hi; simp at hi
  | cons a t ih =>
    intro i hi
    cases i with
    | zero => simp [List.getD]
    | succ n =>
      simp only [List.length_cons] at hi
      rw [List.take_succ_cons, List.take_succ_cons, ih n (by omega)]
      rfl

theorem timeRowsOf_none (l : String) : timeRowsOf none l = [] := by
  cases hsd : searchScDate l.data <;> simp [timeRowsOf, hsd]

theorem cmdRowsOf_none (l : String) : cmdRowsOf none l = [] := by
  cases hp : parse_command_line l with
  | none => simp [cmdRowsOf, hp]
  | some trip =>
    obtain ⟨cid, descr, params⟩ := trip
    simp [cmdRowsOf, hp]

/-- C3 (counterexample): on a line holding two SC_WAIT_A tokens followed by
a command line, the emitted row's first field is the value of the first
token on that line ("1"), not the most recent preceding token in the input
("2"). -/
theorem c3_counterexample :
    convert_log_rows "#SC_WAIT_A=1 #SC_WAIT_A=2\n0x01 02 #CMD" = ["1\t01\t(02) CMD\t"] ∧
    findAllWaits "#SC_WAIT_A=1 #SC_WAIT_A=2\n0x01 02 #CMD".data = ["1", "2"] ∧
    firstField "1\t01\t(02) CMD\t" = "1" ∧ ("1" : String) ≠ "2" :=
  ⟨rfl, rfl, rfl, by decide⟩

/-- C3 (amended): every emitted row consists of exactly four tab-separated
fields; the converter output is the concatenation of per-line row lists; the
first field of any row of line i equals the first SC_WAIT_A capture of the
most recent line at or before i holding one (possibly line i itself, even
when the token follows the command on that line); and an input with no
SC_WAIT_A match on any line produces no rows. -/
theorem c3_amended_rows :
    (∀ (contents : String) (r : String),
        r ∈ convert_log_rows contents → fourTabFields r) ∧
    (∀ lines : List String,
        convertRows none lines =
          ((List.range lines.length).map (rowsOfLine lines)).flatten) ∧
    (∀ (lines : List String) (i : Nat) (r : String),
        i < lines.length → r ∈ rowsOfLine lines i →
        ∃ v, mostRecentWait lines i = some v ∧ firstField r = v) ∧
    (∀ lines : List String,
        (∀ l ∈ lines, searchWait l.data = none) → convertRows none lines = []) := by
  refine ⟨?_, ?_, ?_, ?_⟩
  · intro contents r hr
    exact convertRows_fields (py_splitlines contents) none
      (fun u hu => absurd hu (by simp)) r hr
  · intro lines
    exact convertRows_flatten lines none
  · intro lines i r hi hr
    have hwB : ∀ u, waitBefore lines i = some u → u.data.all Char.isDigit = true :=
      fun u hu => foldl_waitStep_digits (lines.take i) none
        (fun v hv => absurd hv (by simp)) u hu
    obtain ⟨_, v, hv, hfirst, _⟩ := lineRows_mem_fields hwB r hr
    refine ⟨v, ?_, hfirst⟩
    have hmr : mostRecentWait lines i = (lines.take (i + 1)).foldl waitStep none := by
      unfold mostRecentWait
      rw [foldl_waitStep_eq_lastWaitScan]
      cases lastWaitScan (lines.take (i + 1)) <;> rfl
    rw [hmr, take_succ_getD "" lines i hi, List.foldl_append]
    exact hv
  · intro lines hno
    induction lines with
    | nil => rfl
    | cons l ls ih =>
      rw [show convertRows none (l :: ls)
          = (lineRows none l).2 ++ convertRows (waitStep none l) ls from rfl]
      have hws : waitStep none l = none := by
        unfold waitStep
        rw [hno l (by simp)]
      rw [hws, lineRows_split, hws, timeRowsOf_none, cmdRowsOf_none]
      simp only [List.nil_append, List.append_nil]
      exact ih (fun x hx => hno x (by simp [hx]))

/-- Witness for C3: the amended statement applied at a concrete two-line
input. -/
theorem c3_amended_rows_witness :
    fourTabFields "5\t01\t(02) CMD\t" ∧
    (∃ v, mostRecentWait ["#SC_WAIT_A=5", "0x01 02 #CMD"] 1 = some v ∧
      firstField "5\t01\t(02) CMD\t" = v) ∧
    convertRows none ["no wait here"] = [] :=
  ⟨c3_amended_rows.1 "#SC_WAIT_A=5\n0x01 02 #CMD" "5\t01\t(02) CMD\t" (by decide),
   c3_amended_rows.2.2.1 ["#SC_WAIT_A=5", "0x01 02 #CMD"] 1 "5\t01\t(02) CMD\t"
     (by decide) (by decide),
   c3_amended_rows.2.2.2 ["no wait here"] (by intro l hl; simp at hl; rw [hl]; rfl)⟩

-- ==========================================================================
-- src/IR_gen.py : docx helpers and generate_docx (lines 41-155)
-- ==========================================================================

/-- An uploaded image file; only the name reaches the text layer of the
document model (the picture run itself carries no text). -/
structure ImageFile where
  name : String
deriving Repr, DecidableEq

/-- A docx document restricted to its text layer: the table cell texts and
the paragraph texts.  python-docx rows expose the table's full column grid;
cell access is modelled totally (getD and set), which agrees with the code
on the 2-plus-column tables of the incident-report template. -/
structure Docx where
  tables : List (List (List String))
  paragraphs : List String
deriving Repr, DecidableEq

/-- Model of `_clear_table_rows_except_header` (src/IR_gen.py lines 41-45):
remove trailing rows until only the first `header_rows` remain. -/
def clear_table_rows_except_header (table : List (List String)) (header_rows : Nat) :
    List (List String) :=
  table.take header_rows

/-- Model of `_set_2col_table_value` (src/IR_gen.py lines 48-52): write the
value into the second cell of the first row whose first-cell text strips to
the stripped label; no row matching leaves the table unchanged.
`"" if value is None else str(value)` is the identity on strings. -/
def set_2col_table_value (table : List (List String)) (label value : String) :
    List (List String) :=
  match table with
  | [] => []
  | r :: rs =>
    if pyStrip (r.getD 0 "") = pyStrip label then (r.set 1 value) :: rs
    else r :: set_2col_table_value rs label value

/-- Model of `_set_paragraph_after_heading` (src/IR_gen.py lines 55-60):
replace the paragraph following the first paragraph whose text strips to the
stripped heading, when a following paragraph exists.  `new_text or ""`
equals `new_text` on strings. -/
def set_paragraph_after_heading (paragraphs : List String) (heading new_text : String) :
    List String :=
  match paragraphs with
  | [] => []
  | p :: ps =>
    if pyStrip p = pyStrip heading then
      match ps with
      | [] => p :: ps
      | _ :: qs => p :: new_text :: qs
    else p :: set_paragraph_after_heading ps heading new_text

/-- Python `name.rsplit(".", 1)[0]`: the text before the last dot, or the
whole name when there is none. -/
def rsplit_base (name : String) : String :=
  let rev := name.data.reverse
  if rev.contains '.' then ⟨(((rev.dropWhile (fun c => !(c = '.'))).drop 1)).reverse⟩
  else name

/-- The caption selection of `_append_figures_after_heading` (src/IR_gen.py
lines 84-88): the stripped caption cell when present and nonempty, else the
file name without its extension. -/
def caption_of (captions : List String) (idx : Nat) (f : ImageFile) : String :=
  let c := if idx < captions.length then pyStrip (captions.getD idx "") else ""
  if c = "" then rsplit_base f.name else c

/-- The two paragraphs one figure inserts: the (empty-text) picture
paragraph and the italic caption. -/
def figure_block (fig_no : Nat) (label : String) (captions : List String)
    (idx : Nat) (f : ImageFile) : List String :=
  ["", "Figure " ++ toString fig_no ++ ". " ++ label ++ " – " ++ caption_of captions idx f]

/-- All paragraphs the figure loop inserts, in order. -/
def figure_blocks (files : List ImageFile) (captions : List String)
    (figure_start : Nat) (label : String) : List String :=
  (files.enum.map (fun p => figure_block (figure_start + p.1) label captions p.1 p.2)).flatten

/-- Model of `_append_figures_after_heading` (src/IR_gen.py lines 69-100):
with no files, or no paragraph matching the heading, the document and the
figure counter are unchanged; otherwise the figure blocks are inserted after
the paragraph following the first matching heading (after the heading itself
when it is the last paragraph) and the counter advances by one per file. -/
def append_figures_after_heading (paragraphs : List String) (heading : String)
    (files : List ImageFile) (captions : List String) (figure_start : Nat)
    (section_label : String) : List String × Nat :=
  if files.isEmpty then (paragraphs, figure_start)
  else go paragraphs
where
  go : List String → List String × Nat
    | [] => ([], figure_start)
    | p :: ps =>
      if pyStrip p = pyStrip heading then
        match ps with
        | [] => (p :: figure_blocks files captions figure_start section_label,
                 figure_start + files.length)
        | q :: qs => (p :: q :: (figure_blocks files captions figure_start section_label ++ qs),
                      figure_start + files.length)
      else
        let r := go ps
        (p :: r.1, r.2)

/-- One row of the Sequence of Events editor. -/
structure SeqRow where
  date : String
  time : String
  category : String
  message : String
deriving Repr, DecidableEq

/-- One row of the Response and Actions editor. -/
structure ActionRow where
  date : String
  time : String
  performed_by : String
  action : String
  result : String
deriving Repr, DecidableEq

/-- Model of `_fill_sequence_table` (src/IR_gen.py lines 103-110): clear all
rows (header_rows = 0) and append one row of the four column texts per
dataframe row. -/
def fill_sequence_table (table : List (List String)) (df : List SeqRow) :
    List (List String) :=
  clear_table_rows_except_header table 0 ++
    df.map (fun r => [r.date, r.time, r.category, r.message])

/-- Model of `_fill_actions_table` (src/IR_gen.py lines 113-121): keep the
header row and append one row of the five column texts per dataframe row. -/
def fill_actions_table (table : List (List String)) (df : List ActionRow) :
    List (List String) :=
  clear_table_rows_except_header table 1 ++
    df.map (fun r => [r.date, r.time, r.performed_by, r.action, r.result])

/-- The form data dictionary passed to generate_docx
(src/IR_gen.py lines 273-296). -/
structure IRData where
  reported_by : String
  position : String
  date_of_report : String
  full_incident_no : String
  incident_date : String
  incident_time : String
  location : String
  current_status : String
  nature : String
  damages : String
  investigation : String
  conclusion : String
  sequence_df : List SeqRow
  actions_df : List ActionRow
  sequence_images : List ImageFile
  damages_images : List ImageFile
  investigation_images : List ImageFile
  conclusion_images : List ImageFile
  sequence_captions : List String
  damages_captions : List String
  investigation_captions : List String
  conclusion_captions : List String
deriving Repr, DecidableEq

/-- Model of `generate_docx` (src/IR_gen.py lines 124-155).  The unguarded
`doc.tables[0] .. doc.tables[3]` destructuring raises IndexError on
templates with fewer than 4 tables, modelled as `none`; the docx
serialization at the end returns the document itself here. -/
def generate_docx (data : IRData) (doc : Docx) : Option Docx :=
  match doc.tables with
  | t0 :: t1 :: t2 :: t3 :: restTables =>
    let t0a := set_2col_table_value t0 "Reported by" data.reported_by
    let t0b := set_2col_table_value t0a "Position" data.position
    let t0c := set_2col_table_value t0b "Date of Report" data.date_of_report
    let t0d := set_2col_table_value t0c "Incident No." data.full_incident_no
    let t1a := set_2col_table_value t1 "Date (YYYY-MM-DD)" data.incident_date
    let t1b := set_2col_table_value t1a "Time" data.incident_time
    let t1c := set_2col_table_value t1b "Location" data.location
    let t1d := set_2col_table_value t1c "Current Status" data.current_status
    let p1 := set_paragraph_after_heading doc.paragraphs "Nature of Incident" data.nature
    let p2 := set_paragraph_after_heading p1 "Damages Incurred (if any)" data.damages
    let p3 := set_paragraph_after_heading p2 "Investigation and Analysis" data.investigation
    let p4 := set_paragraph_after_heading p3 "Conclusion and Recommendations" data.conclusion
    let t2f := fill_sequence_table t2 data.sequence_df
    let t3f := fill_actions_table t3 data.actions_df
    let f1 := append_figures_after_heading p4 "Sequence of Events"
      data.sequence_images data.sequence_captions 1 "Sequence of Events"
    let f2 := append_figures_after_heading f1.1 "Damages Incurred (if any)"
      data.damages_images data.damages_captions f1.2 "Damages Incurred"
    let f3 := append_figures_after_heading f2.1 "Investigation and Analysis"
      data.investigation_images data.investigation_captions f2.2 "Investigation and Analysis"
    let f4 := append_figures_after_heading f3.1 "Conclusion and Recommendations"
      data.conclusion_images data.conclusion_captions f3.2 "Conclusion and Recommendations"
    some { tables := t0d :: t1d :: t2f :: t3f :: restTables, paragraphs := f4.1 }
  | _ => none

/-- A concrete form submission used by the concrete instances below: the
section texts are distinct markers, there are no uploaded photos and no
table rows. -/
def sampleIRData : IRData :=
  { reported_by := "RB", position := "PS", date_of_report := "2024-01-01",
    full_incident_no := "SMCOD-IR-GS-DVO-2024-0001",
    incident_date := "2024-01-01", incident_time := "10:00:00",
    location := "Davao City", current_status := "Resolved",
    nature := "NAT", damages := "DMG", investigation := "INV", conclusion := "CON",
    sequence_df := [], actions_df := [],
    sequence_images := [], damages_images := [],
    investigation_images := [], conclusion_images := [],
    sequence_captions := [], damages_captions := [],
    investigation_captions := [], conclusion_captions := [] }

/-- C5: generate_docx destructures doc.tables[0..3] unconditionally — with
at least 4 tables the accesses succeed and a document is produced, and with
fewer than 4 the whole call fails with the IndexError modelled by none. -/
theorem c5_four_tables (data : IRData) (doc : Docx) :
    (4 ≤ doc.tables.length → ∃ out, generate_docx data doc = some out) ∧
    (doc.tables.length < 4 → generate_docx data doc = none) := by
  obtain ⟨dts, dps⟩ := doc
  constructor
  · intro h4
    match dts, h4 with
    | t0 :: t1 :: t2 :: t3 :: restT, _ => exact ⟨_, rfl⟩
  · intro hlt
    match dts, hlt with
    | [], _ => rfl
    | [t0], _ => rfl
    | [t0, t1], _ => rfl
    | [t0, t1, t2], _ => rfl
    | t0 :: t1 :: t2 :: t3 :: restT, h =>
      simp only [List.length_cons] at h
      omega

/-- Witness for C5 at concrete documents with 4 and with 3 tables. -/
theorem c5_four_tables_witness :
    (∃ out, generate_docx sampleIRData ⟨[[], [], [], []], []⟩ = some out) ∧
    generate_docx sampleIRData ⟨[[], [], []], []⟩ = none :=
  ⟨(c5_four_tables sampleIRData ⟨[[], [], [], []], []⟩).1 (by decide),
   (c5_four_tables sampleIRData ⟨[[], [], []], []⟩).2 (by decide)⟩

/-- A template whose "Damages Incurred (if any)" heading immediately follows
the "Nature of Incident" heading. -/
def adjacentHeadingsDoc : Docx :=
  { tables := [[["Reported by", ""], ["Position", ""], ["Date of Report", ""],
                ["Incident No.", ""]],
               [["Date (YYYY-MM-DD)", ""], ["Time", ""], ["Location", ""],
                ["Current Status", ""]],
               [], []],
    paragraphs := ["Nature of Incident", "Damages Incurred (if any)", "filler"] }

/-- C1 (counterexample): the template contains a paragraph equal to the
section heading "Damages Incurred (if any)" and the form value for that
section is "DMG", yet generate_docx writes "DMG" nowhere: the damages
heading paragraph was overwritten by the nature text before the damages
write searched for it. -/
theorem c1_counterexample :
    adjacentHeadingsDoc.paragraphs.get? 1 = some "Damages Incurred (if any)" ∧
    sampleIRData.damages = "DMG" ∧
    ∃ out, generate_docx sampleIRData adjacentHeadingsDoc = some out ∧
      out.paragraphs = ["Nature of Incident", "NAT", "filler"] ∧
      "DMG" ∉ out.paragraphs := by
  refine ⟨rfl, rfl, _, rfl, rfl, by decide⟩

-- Index machinery for the first matching row / paragraph.

/-- Index of the first paragraph whose text strips to the stripped
heading. -/
def firstStripIdx (heading : String) : List String → Option Nat
  | [] => none
  | p :: ps =>
    if pyStrip p = pyStrip heading then some 0
    else (firstStripIdx heading ps).map (· + 1)

/-- Index of the first row whose first-cell text strips to the stripped
label. -/
def firstLabelIdx (label : String) : List (List String) → Option Nat
  | [] => none
  | r :: rs =>
    if pyStrip (r.getD 0 "") = pyStrip label then some 0
    else (firstLabelIdx label rs).map (· + 1)

theorem get?_set_self {α : Type} :
    ∀ (l : List α) (i : Nat) (a : α), i < l.length → (l.set i a).get? i = some a := by
  intro l
  induction l with
  | nil => intro i a hi; simp at hi
  | cons x t ih =>
    intro i a hi
    cases i with
    | zero => rfl
    | succ n =>
      simp only [List.length_cons] at hi
      exact ih n a (by omega)

theorem get?_set_ne {α : Type} :
    ∀ (l : List α) (i j : Nat) (a : α), i ≠ j → (l.set i a).get? j = l.get? j := by
  intro l
  induction l with
  | nil => intro i j a _; simp
  | cons x t ih =>
    intro i j a hij
    cases i with
    | zero =>
      cases j with
      | zero => exact absurd rfl hij
      | succ m => rfl
    | succ n =>
      cases j with
      | zero => rfl
      | succ m => exact ih n m a (by omega)

theorem firstStripIdx_lt {h : String} :
    ∀ {pars : List String} {j : Nat}, firstStripIdx h pars = some j → j < pars.length := by
  intro pars
  induction pars with
  | nil => intro j hj; simp [firstStripIdx] at hj
  | cons p ps ih =>
    intro j hj
    unfold firstStripIdx at hj
    by_cases hm : pyStrip p = pyStrip h
    · rw [if_pos hm] at hj
      rw [← Option.some.inj hj]
      simp
    · rw [if_neg hm] at hj
      cases hfi : firstStripIdx h ps with
      | none => rw [hfi] at hj; simp at hj
      | some j' =>
        rw [hfi] at hj
        simp only [Option.map_some'] at hj
        rw [← Option.some.inj hj]
        have := ih hfi
        simp only [List.length_cons]
        omega

theorem firstStripIdx_get {h : String} :
    ∀ {pars : List String} {j : Nat}, firstStripIdx h pars = some j →
      ∃ p, pars.get? j = some p ∧ pyStrip p = pyStrip h := by
  intro pars
  induction pars with
  | nil => intro j hj; simp [firstStripIdx] at hj
  | cons p ps ih =>
    intro j hj
    unfold firstStripIdx at hj
    by_cases hm : pyStrip p = pyStrip h
    · rw [if_pos hm] at hj
      rw [← Option.some.inj hj]
      exact ⟨p, rfl, hm⟩
    · rw [if_neg hm] at hj
      cases hfi : firstStripIdx h ps with
      | none => rw [hfi] at hj; simp at hj
      | some j' =>
        rw [hfi] at hj
        simp only [Option.map_some'] at hj
        rw [← Option.some.inj hj]
        exact ih hfi

theorem firstLabelIdx_get {lab : String} :
    ∀ {t : List (List String)} {i : Nat}, firstLabelIdx lab t = some i →
      ∃ r, t.get? i = some r ∧ pyStrip (r.getD 0 "") = pyStrip lab := by
  intro t
  induction t with
  | nil => intro i hi; simp [firstLabelIdx] at hi
  | cons r rs ih =>
    intro i hi
    unfold firstLabelIdx at hi
    by_cases hm : pyStrip (r.getD 0 "") = pyStrip lab
    · rw [if_pos hm] at hi
      rw [← Option.some.inj hi]
      exact ⟨r, rfl, hm⟩
    · rw [if_neg hm] at hi
      cases hfi : firstLabelIdx lab rs with
      | none => rw [hfi] at hi; simp at hi
      | some i' =>
        rw [hfi] at hi
        simp only [Option.map_some'] at hi
        rw [← Option.some.inj hi]
        exact ih hfi

/-- Distinct stripped headings have distinct first positions. -/
theorem firstStripIdx_ne {h₁ h₂ : String} {pars : List String} {j₁ j₂ : Nat}
    (hs : pyStrip h₁ ≠ pyStrip h₂)
    (hf1 : firstStripIdx h₁ pars = some j₁) (hf2 : firstStripIdx h₂ pars = some j₂) :
    j₁ ≠ j₂ := by
  intro heq
  obtain ⟨p₁, hp₁, hm₁⟩ := firstStripIdx_get hf1
  obtain ⟨p₂, hp₂, hm₂⟩ := firstStripIdx_get hf2
  rw [heq, hp₂] at hp₁
  have hpp : p₂ = p₁ := Option.some.inj hp₁
  rw [hpp] at hm₂
  exact hs (hm₁.symm.trans hm₂)

/-- Distinct stripped labels have distinct first rows. -/
theorem firstLabelIdx_ne {l₁ l₂ : String} {t : List (List String)} {i₁ i₂ : Nat}
    (hs : pyStrip l₁ ≠ pyStrip l₂)
    (hf1 : firstLabelIdx l₁ t = some i₁) (hf2 : firstLabelIdx l₂ t = some i₂) :
    i₁ ≠ i₂ := by
  intro heq
  obtain ⟨r₁, hr₁, hm₁⟩ := firstLabelIdx_get hf1
  obtain ⟨r₂, hr₂, hm₂⟩ := firstLabelIdx_get hf2
  rw [heq, hr₂] at hr₁
  have hrr : r₂ = r₁ := Option.some.inj hr₁
  rw [hrr] at hm₂
  exact hs (hm₁.symm.trans hm₂)

-- Behaviour of the two writers in terms of List.set, and stability of the
-- first-match indices under the writes.

theorem lt_of_get?_some {α : Type} :
    ∀ {l : List α} {i : Nat} {a : α}, l.get? i = some a → i < l.length := by
  intro l
  induction l with
  | nil => intro i a h; simp at h
  | cons x t ih =>
    intro i a h
    cases i with
    | zero => simp
    | succ n =>
      simp only [List.length_cons]
      have hlt : n < t.length := ih h
      omega

theorem set_pah_none {h v : String} :
    ∀ {pars : List String}, firstStripIdx h pars = none →
      set_paragraph_after_heading pars h v = pars := by
  intro pars
  induction pars with
  | nil => intro _; rfl
  | cons p ps ih =>
    intro hfi
    unfold firstStripIdx at hfi
    by_cases hm : pyStrip p = pyStrip h
    · rw [if_pos hm] at hfi; exact absurd hfi (by simp)
    · rw [if_neg hm] at hfi
      have hps : firstStripIdx h ps = none := by
        cases hq : firstStripIdx h ps with
        | none => rfl
        | some j => rw [hq] at hfi; simp at hfi
      unfold set_paragraph_after_heading
      rw [if_neg hm, ih hps]

theorem set_pah_eq_set {h v : String} :
    ∀ {pars : List String} {j : Nat}, firstStripIdx h pars = some j →
      j + 1 < pars.length →
      set_paragraph_after_heading pars h v = pars.set (j + 1) v := by
  intro pars
  induction pars with
  | nil => intro j hj _; simp [firstStripIdx] at hj
  | cons p ps ih =>
    intro j hj hlen
    unfold firstStripIdx at hj
    by_cases hm : pyStrip p = pyStrip h
    · rw [if_pos hm] at hj
      have hj0 : j = 0 := (Option.some.inj hj).symm
      subst hj0
      cases ps with
      | nil => simp at hlen
      | cons q qs =>
        unfold set_paragraph_after_heading
        rw [if_pos hm]
        rfl
    · rw [if_neg hm] at hj
      cases hfi : firstStripIdx h ps with
      | none => rw [hfi] at hj; simp at hj
      | some j' =>
        rw [hfi] at hj
        simp only [Option.map_some'] at hj
        have hjj : j = j' + 1 := (Option.some.inj hj).symm
        subst hjj
        unfold set_paragraph_after_heading
        rw [if_neg hm, ih hfi (by simp only [List.length_cons] at hlen; omega)]
        rfl

theorem set_pah_last {h v : String} :
    ∀ {pars : List String} {j : Nat}, firstStripIdx h pars = some j →
      j + 1 = pars.length →
      set_paragraph_after_heading pars h v = pars := by
  intro pars
  induction pars with
  | nil => intro j hj _; simp [firstStripIdx] at hj
  | cons p ps ih =>
    intro j hj hlen
    unfold firstStripIdx at hj
    by_cases hm : pyStrip p = pyStrip h
    · rw [if_pos hm] at hj
      have hj0 : j = 0 := (Option.some.inj hj).symm
      subst hj0
      cases ps with
      | nil =>
        unfold set_paragraph_after_heading
        rw [if_pos hm]
      | cons q qs => simp at hlen
    · rw [if_neg hm] at hj
      cases hfi : firstStripIdx h ps with
      | none => rw [hfi] at hj; simp at hj
      | some j' =>
        rw [hfi] at hj
        simp only [Option.map_some'] at hj
        have hjj : j = j' + 1 := (Option.some.inj hj).symm
        subst hjj
        unfold set_paragraph_after_heading
        rw [if_neg hm, ih hfi (by simp only [List.length_cons] at hlen; omega)]

theorem firstStripIdx_set {h' v : String} :
    ∀ {pars : List String} {m : Nat}, pyStrip v ≠ pyStrip h' →
      firstStripIdx h' pars ≠ some m →
      firstStripIdx h' (pars.set m v) = firstStripIdx h' pars := by
  intro pars
  induction pars with
  | nil => intro m _ _; rfl
  | cons p ps ih =>
    intro m hv hne
    cases m with
    | zero =>
      by_cases hm : pyStrip p = pyStrip h'
      · exact absurd (by unfold firstStripIdx; rw [if_pos hm]) hne
      · show firstStripIdx h' (v :: ps) = firstStripIdx h' (p :: ps)
        unfold firstStripIdx
        rw [if_neg hv, if_neg hm]
    | succ n =>
      show firstStripIdx h' (p :: ps.set n v) = firstStripIdx h' (p :: ps)
      unfold firstStripIdx
      by_cases hm : pyStrip p = pyStrip h'
      · rw [if_pos hm, if_pos hm]
      · rw [if_neg hm, if_neg hm]
        have hne' : firstStripIdx h' ps ≠ some n := by
          intro hc
          apply hne
          unfold firstStripIdx
          rw [if_neg hm, hc]
          rfl
        rw [ih hv hne']

theorem spah_length :
    ∀ (pars : List String) (h v : String),
      (set_paragraph_after_heading pars h v).length = pars.length := by
  intro pars
  induction pars with
  | nil => intro h v; rfl
  | cons p ps ih =>
    intro h v
    unfold set_paragraph_after_heading
    by_cases hm : pyStrip p = pyStrip h
    · rw [if_pos hm]
      cases ps with
      | nil => rfl
      | cons q qs => rfl
    · rw [if_neg hm]
      simp only [List.length_cons]
      rw [ih]

/-- Writing one section leaves the first position of any other heading
unchanged, provided the written text does not strip to that heading and no
first occurrence of it sits immediately after the written heading's first
occurrence. -/
theorem spah_preserves_firstStripIdx {pars : List String} {h v h' : String}
    (hv : pyStrip v ≠ pyStrip h')
    (hpos : ∀ j j', firstStripIdx h pars = some j →
      firstStripIdx h' pars = some j' → j' ≠ j + 1) :
    firstStripIdx h' (set_paragraph_after_heading pars h v) = firstStripIdx h' pars := by
  cases hfi : firstStripIdx h pars with
  | none => rw [set_pah_none hfi]
  | some j =>
    by_cases hlen : j + 1 < pars.length
    · rw [set_pah_eq_set hfi hlen]
      refine firstStripIdx_set hv ?_
      intro hc
      exact hpos j (j + 1) hfi hc rfl
    · have hj : j < pars.length := firstStripIdx_lt hfi
      have hje : j + 1 = pars.length := by omega
      rw [set_pah_last hfi hje]

/-- Writing one section leaves any paragraph position other than the one
after the written heading's first occurrence unchanged. -/
theorem spah_preserves_get {pars : List String} {h v : String} {k : Nat}
    (hk : ∀ j, firstStripIdx h pars = some j → j + 1 ≠ k) :
    (set_paragraph_after_heading pars h v).get? k = pars.get? k := by
  cases hfi : firstStripIdx h pars with
  | none => rw [set_pah_none hfi]
  | some j =>
    by_cases hlen : j + 1 < pars.length
    · rw [set_pah_eq_set hfi hlen]
      exact get?_set_ne pars (j + 1) k v (hk j hfi)
    · have hj : j < pars.length := firstStripIdx_lt hfi
      have hje : j + 1 = pars.length := by omega
      rw [set_pah_last hfi hje]

theorem row_set1_getD0 (r : List String) (v : String) :
    (r.set 1 v).getD 0 "" = r.getD 0 "" := by
  cases r with
  | nil => rfl
  | cons a t => cases t <;> rfl

theorem row_set1_getD1 {r : List String} (v : String) (h : 2 ≤ r.length) :
    (r.set 1 v).getD 1 "" = v := by
  cases r with
  | nil => simp at h
  | cons a t =>
    cases t with
    | nil => simp at h
    | cons b t' => rfl

theorem set_2col_none {lab v : String} :
    ∀ {t : List (List String)}, firstLabelIdx lab t = none →
      set_2col_table_value t lab v = t := by
  intro t
  induction t with
  | nil => intro _; rfl
  | cons r rs ih =>
    intro hfi
    unfold firstLabelIdx at hfi
    by_cases hm : pyStrip (r.getD 0 "") = pyStrip lab
    · rw [if_pos hm] at hfi; exact absurd hfi (by simp)
    · rw [if_neg hm] at hfi
      have hrs : firstLabelIdx lab rs = none := by
        cases hq : firstLabelIdx lab rs with
        | none => rfl
        | some i => rw [hq] at hfi; simp at hfi
      unfold set_2col_table_value
      rw [if_neg hm, ih hrs]

theorem set_2col_eq_set {lab v : String} :
    ∀ {t : List (List String)} {i : Nat} {r : List String},
      firstLabelIdx lab t = some i → t.get? i = some r →
      set_2col_table_value t lab v = t.set i (r.set 1 v) := by
  intro t
  induction t with
  | nil => intro i r hi _; simp [firstLabelIdx] at hi
  | cons r₀ rs ih =>
    intro i r hi hr
    unfold firstLabelIdx at hi
    by_cases hm : pyStrip (r₀.getD 0 "") = pyStrip lab
    · rw [if_pos hm] at hi
      have hi0 : i = 0 := (Option.some.inj hi).symm
      subst hi0
      have hr0 : r₀ = r := Option.some.inj hr
      subst hr0
      unfold set_2col_table_value
      rw [if_pos hm]
      rfl
    · rw [if_neg hm] at hi
      cases hfi : firstLabelIdx lab rs with
      | none => rw [hfi] at hi; simp at hi
      | some i' =>
        rw [hfi] at hi
        simp only [Option.map_some'] at hi
        have hii : i = i' + 1 := (Option.some.inj hi).symm
        subst hii
        unfold set_2col_table_value
        rw [if_neg hm, ih hfi hr]
        rfl

/-- A value write never changes which row a (same or different) label first
matches: only second cells are written. -/
theorem firstLabelIdx_set2col (lab₂ lab v : String) :
    ∀ t : List (List String),
      firstLabelIdx lab₂ (set_2col_table_value t lab v) = firstLabelIdx lab₂ t := by
  intro t
  induction t with
  | nil => rfl
  | cons r rs ih =>
    unfold set_2col_table_value
    by_cases hm : pyStrip (r.getD 0 "") = pyStrip lab
    · rw [if_pos hm]
      unfold firstLabelIdx
      rw [row_set1_getD0]
    · rw [if_neg hm]
      unfold firstLabelIdx
      by_cases hm₂ : pyStrip (r.getD 0 "") = pyStrip lab₂
      · rw [if_pos hm₂, if_pos hm₂]
      · rw [if_neg hm₂, if_neg hm₂, ih]

theorem set_2col_get_ne {t : List (List String)} {lab v : String} {k : Nat}
    (h : ∀ i, firstLabelIdx lab t = some i → i ≠ k) :
    (set_2col_table_value t lab v).get? k = t.get? k := by
  cases hfi : firstLabelIdx lab t with
  | none => rw [set_2col_none hfi]
  | some i =>
    obtain ⟨r, hr, _⟩ := firstLabelIdx_get hfi
    rw [set_2col_eq_set hfi hr]
    exact get?_set_ne t i k _ (h i hfi)

theorem set_2col_get_self {t : List (List String)} {lab v : String} {i : Nat}
    {r : List String}
    (hfi : firstLabelIdx lab t = some i) (hr : t.get? i = some r) :
    (set_2col_table_value t lab v).get? i = some (r.set 1 v) := by
  rw [set_2col_eq_set hfi hr]
  exact get?_set_self t i _ (lt_of_get?_some hr)

theorem append_figures_nil (pars : List String) (heading : String)
    (captions : List String) (figure_start : Nat) (label : String) :
    append_figures_after_heading pars heading [] captions figure_start label
      = (pars, figure_start) := rfl

-- Fold forms of the write chains in generate_docx.

/-- One write step of the label/value chain on a table. -/
def tableWrite (tb : List (List String)) (pv : String × String) : List (List String) :=
  set_2col_table_value tb pv.1 pv.2

/-- One write step of the heading/value chain on the paragraphs. -/
def parWrite (ps : List String) (hv : String × String) : List String :=
  set_paragraph_after_heading ps hv.1 hv.2

theorem tableWrite_fold_get_ne :
    ∀ (ps : List (String × String)) (t : List (List String)) (k : Nat),
      (∀ q ∈ ps, ∀ iq, firstLabelIdx q.1 t = some iq → iq ≠ k) →
      (ps.foldl tableWrite t).get? k = t.get? k := by
  intro ps
  induction ps with
  | nil => intro t k _; rfl
  | cons q qs ih =>
    intro t k h
    rw [List.foldl_cons]
    have hstep : (tableWrite t q).get? k = t.get? k :=
      set_2col_get_ne (h q (by simp))
    rw [← hstep]
    refine ih (tableWrite t q) k ?_
    intro q' hq' iq hiq
    rw [show tableWrite t q = set_2col_table_value t q.1 q.2 from rfl,
        firstLabelIdx_set2col] at hiq
    exact h q' (by simp [hq']) iq hiq

/-- After the whole label/value chain, the first row matching a written
label carries the written value in its second cell, provided the labels are
pairwise distinct after stripping. -/
theorem tableWrite_fold_get :
    ∀ (ps : List (String × String)),
      List.Pairwise (fun p q => pyStrip p.1 ≠ pyStrip q.1) ps →
      ∀ (t : List (List String)) (lv : String × String) (i : Nat) (r : List String),
        lv ∈ ps → firstLabelIdx lv.1 t = some i → t.get? i = some r →
        (ps.foldl tableWrite t).get? i = some (r.set 1 lv.2) := by
  intro ps
  induction ps with
  | nil => intro _ t lv i r hlv _ _; simp at hlv
  | cons q qs ih =>
    intro hpw t lv i r hlv hfi hr
    obtain ⟨hq, hpw'⟩ := List.pairwise_cons.mp hpw
    rw [List.foldl_cons]
    rcases List.mem_cons.mp hlv with heq | hmem
    · subst heq
      have hself : (tableWrite t lv).get? i = some (r.set 1 lv.2) :=
        set_2col_get_self hfi hr
      rw [tableWrite_fold_get_ne qs (tableWrite t lv) i ?_, hself]
      intro q' hq' iq hiq
      rw [show tableWrite t lv = set_2col_table_value t lv.1 lv.2 from rfl,
          firstLabelIdx_set2col] at hiq
      exact (firstLabelIdx_ne (hq q' hq').symm hiq hfi)
    · have hfi' : firstLabelIdx lv.1 (tableWrite t q) = some i := by
        rw [show tableWrite t q = set_2col_table_value t q.1 q.2 from rfl,
            firstLabelIdx_set2col]
        exact hfi
      have hr' : (tableWrite t q).get? i = some r := by
        have hne : ∀ iq, firstLabelIdx q.1 t = some iq → iq ≠ i :=
          fun iq hiq => firstLabelIdx_ne (hq lv hmem) hiq hfi
        rw [show tableWrite t q = set_2col_table_value t q.1 q.2 from rfl,
            set_2col_get_ne hne]
        exact hr
      exact ih hpw' (tableWrite t q) lv i r hmem hfi' hr'

theorem parWrite_fold_get_ne :
    ∀ (ps : List (String × String)) (pars : List String) (k : Nat),
      (∀ q ∈ ps, ∀ jq, firstStripIdx q.1 pars = some jq → jq + 1 ≠ k) →
      (∀ q ∈ ps, ∀ q' ∈ ps, pyStrip q.2 ≠ pyStrip q'.1) →
      (∀ q ∈ ps, ∀ q' ∈ ps, ∀ j j', firstStripIdx q.1 pars = some j →
        firstStripIdx q'.1 pars = some j' → j' ≠ j + 1) →
      (ps.foldl parWrite pars).get? k = pars.get? k := by
  intro ps
  induction ps with
  | nil => intro pars k _ _ _; rfl
  | cons q qs ih =>
    intro pars k h1 h2 h3
    rw [List.foldl_cons]
    have hstab : ∀ q' ∈ qs,
        firstStripIdx q'.1 (parWrite pars q) = firstStripIdx q'.1 pars := by
      intro q' hq'
      exact spah_preserves_firstStripIdx
        (h2 q (by simp) q' (by simp [hq']))
        (fun j j' hj hj' => h3 q (by simp) q' (by simp [hq']) j j' hj hj')
    have hstep : (parWrite pars q).get? k = pars.get? k :=
      spah_preserves_get (fun j hj => h1 q (by simp) j hj)
    rw [← hstep]
    refine ih (parWrite pars q) k ?_ ?_ ?_
    · intro q' hq' jq hjq
      rw [hstab q' hq'] at hjq
      exact h1 q' (by simp [hq']) jq hjq
    · intro q' hq' q'' hq''
      exact h2 q' (by simp [hq']) q'' (by simp [hq''])
    · intro q' hq' q'' hq'' j j' hj hj'
      rw [hstab q' hq'] at hj
      rw [hstab q'' hq''] at hj'
      exact h3 q' (by simp [hq']) q'' (by simp [hq'']) j j' hj hj'

/-- After the whole heading/value chain, the paragraph after the first
occurrence of a written heading holds the written value, provided headings
are pairwise strip-distinct, no written value strips to a heading, and no
heading's first occurrence immediately follows another's. -/
theorem parWrite_fold_get :
    ∀ (ps : List (String × String)),
      List.Pairwise (fun p q => pyStrip p.1 ≠ pyStrip q.1) ps →
      ∀ (pars : List String) (hv : String × String) (j : Nat),
        (∀ q ∈ ps, ∀ q' ∈ ps, pyStrip q.2 ≠ pyStrip q'.1) →
        (∀ q ∈ ps, ∀ q' ∈ ps, ∀ j₁ j₂, firstStripIdx q.1 pars = some j₁ →
          firstStripIdx q'.1 pars = some j₂ → j₂ ≠ j₁ + 1) →
        hv ∈ ps → firstStripIdx hv.1 pars = some j → j + 1 < pars.length →
        (ps.foldl parWrite pars).get? (j + 1) = some hv.2 := by
  intro ps
  induction ps with
  | nil => intro _ pars hv j _ _ hmem _ _; simp at hmem
  | cons q qs ih =>
    intro hpw pars hv j h2 h3 hmem hfi hlen
    obtain ⟨hq, hpw'⟩ := List.pairwise_cons.mp hpw
    rw [List.foldl_cons]
    have hstab : ∀ q' ∈ qs,
        firstStripIdx q'.1 (parWrite pars q) = firstStripIdx q'.1 pars := by
      intro q' hq'
      exact spah_preserves_firstStripIdx
        (h2 q (by simp) q' (by simp [hq']))
        (fun j₁ j₂ hj₁ hj₂ => h3 q (by simp) q' (by simp [hq']) j₁ j₂ hj₁ hj₂)
    rcases List.mem_cons.mp hmem with heq | hmem'
    · subst heq
      have hwrite : (parWrite pars hv).get? (j + 1) = some hv.2 := by
        rw [show parWrite pars hv = set_paragraph_after_heading pars hv.1 hv.2 from rfl,
            set_pah_eq_set hfi hlen]
        exact get?_set_self pars (j + 1) hv.2 hlen
      rw [parWrite_fold_get_ne qs (parWrite pars hv) (j + 1) ?_ ?_ ?_, hwrite]
      · intro q' hq' jq hjq
        rw [hstab q' hq'] at hjq
        have : jq ≠ j := firstStripIdx_ne (hq q' hq').symm hjq hfi
        omega
      · intro q' hq' q'' hq''
        exact h2 q' (by simp [hq']) q'' (by simp [hq''])
      · intro q' hq' q'' hq'' j₁ j₂ hj₁ hj₂
        rw [hstab q' hq'] at hj₁
        rw [hstab q'' hq''] at hj₂
        exact h3 q' (by simp [hq']) q'' (by simp [hq'']) j₁ j₂ hj₁ hj₂
    · have hfi' : firstStripIdx hv.1 (parWrite pars q) = some j := by
        rw [hstab hv hmem']
        exact hfi
      have hlen' : j + 1 < (parWrite pars q).length := by
        rw [show parWrite pars q = set_paragraph_after_heading pars q.1 q.2 from rfl,
            spah_length]
        exact hlen
      refine ih hpw' (parWrite pars q) hv j ?_ ?_ hmem' hfi' hlen'
      · intro q' hq' q'' hq''
        exact h2 q' (by simp [hq']) q'' (by simp [hq''])
      · intro q' hq' q'' hq'' j₁ j₂ hj₁ hj₂
        rw [hstab q' hq'] at hj₁
        rw [hstab q'' hq''] at hj₂
        exact h3 q' (by simp [hq']) q'' (by simp [hq'']) j₁ j₂ hj₁ hj₂

/-- With no uploaded photos the figure phase is the identity, so
generate_docx is the two table chains, the four paragraph writes and the two
table fills. -/
theorem generate_docx_no_images (data : IRData) (dps : List String)
    (t0 t1 t2 t3 : List (List String)) (restT : List (List (List String)))
    (h1 : data.sequence_images = []) (h2 : data.damages_images = [])
    (h3 : data.investigation_images = []) (h4 : data.conclusion_images = []) :
    generate_docx data ⟨t0 :: t1 :: t2 :: t3 :: restT, dps⟩ =
      some (Docx.mk
        ([("Reported by", data.reported_by), ("Position", data.position),
          ("Date of Report", data.date_of_report),
          ("Incident No.", data.full_incident_no)].foldl tableWrite t0 ::
         [("Date (YYYY-MM-DD)", data.incident_date), ("Time", data.incident_time),
          ("Location", data.location),
          ("Current Status", data.current_status)].foldl tableWrite t1 ::
         fill_sequence_table t2 data.sequence_df ::
         fill_actions_table t3 data.actions_df :: restT)
        ([("Nature of Incident", data.nature),
          ("Damages Incurred (if any)", data.damages),
          ("Investigation and Analysis", data.investigation),
          ("Conclusion and Recommendations", data.conclusion)].foldl parWrite dps)) := by
  simp only [generate_docx, h1, h2, h3, h4, append_figures_nil]
  rfl

/-- C1 (amended): provided the submission has no uploaded photos, no
section value strips to a section heading string, and no section heading's
first occurrence sits immediately after another's, generate_docx writes
each first-table form value into the second cell of the first row matching
its label, and each section text into the paragraph immediately following
the first occurrence of its heading. -/
theorem c1_amended (data : IRData) (doc out : Docx)
    (t0 t1 t2 t3 : List (List String)) (restT : List (List (List String)))
    (htab : doc.tables = t0 :: t1 :: t2 :: t3 :: restT)
    (hout : generate_docx data doc = some out)
    (himg1 : data.sequence_images = []) (himg2 : data.damages_images = [])
    (himg3 : data.investigation_images = []) (himg4 : data.conclusion_images = [])
    (hvals : ∀ v ∈ [data.nature, data.damages, data.investigation, data.conclusion],
      ∀ h ∈ ["Nature of Incident", "Damages Incurred (if any)",
             "Investigation and Analysis", "Conclusion and Recommendations"],
      pyStrip v ≠ pyStrip h)
    (hadj : ∀ h₁ ∈ ["Nature of Incident", "Damages Incurred (if any)",
             "Investigation and Analysis", "Conclusion and Recommendations"],
      ∀ h₂ ∈ ["Nature of Incident", "Damages Incurred (if any)",
             "Investigation and Analysis", "Conclusion and Recommendations"],
      ∀ j₁ j₂, firstStripIdx h₁ doc.paragraphs = some j₁ →
        firstStripIdx h₂ doc.paragraphs = some j₂ → j₂ ≠ j₁ + 1) :
    (∀ lv ∈ [("Reported by", data.reported_by), ("Position", data.position),
             ("Date of Report", data.date_of_report),
             ("Incident No.", data.full_incident_no)],
      ∀ i r, firstLabelIdx lv.1 t0 = some i → t0.get? i = some r → 2 ≤ r.length →
        ∃ t0', out.tables.get? 0 = some t0' ∧ t0'.get? i = some (r.set 1 lv.2) ∧
          (r.set 1 lv.2).getD 1 "" = lv.2) ∧
    (∀ hv ∈ [("Nature of Incident", data.nature),
             ("Damages Incurred (if any)", data.damages),
             ("Investigation and Analysis", data.investigation),
             ("Conclusion and Recommendations", data.conclusion)],
      ∀ j, firstStripIdx hv.1 doc.paragraphs = some j →
        j + 1 < doc.paragraphs.length →
        out.paragraphs.get? (j + 1) = some hv.2) := by
  obtain ⟨dts, dps⟩ := doc
  replace htab : dts = t0 :: t1 :: t2 :: t3 :: restT := htab
  subst htab
  rw [generate_docx_no_images data dps t0 t1 t2 t3 restT himg1 himg2 himg3 himg4] at hout
  have hout2 := Option.some.inj hout
  subst hout2
  constructor
  · intro lv hlv i r hfi hr hrlen
    refine ⟨_, rfl, ?_, row_set1_getD1 _ hrlen⟩
    have hpw : List.Pairwise (fun p q : String × String => pyStrip p.1 ≠ pyStrip q.1)
        [("Reported by", data.reported_by), ("Position", data.position),
         ("Date of Report", data.date_of_report),
         ("Incident No.", data.full_incident_no)] := by
      refine List.pairwise_map.mp ?_
      show List.Pairwise Ne [pyStrip "Reported by", pyStrip "Position",
        pyStrip "Date of Report", pyStrip "Incident No."]
      decide
    exact tableWrite_fold_get _ hpw t0 lv i r hlv hfi hr
  · intro hv hhv j hfi hlen
    have hpw : List.Pairwise (fun p q : String × String => pyStrip p.1 ≠ pyStrip q.1)
        [("Nature of Incident", data.nature),
         ("Damages Incurred (if any)", data.damages),
         ("Investigation and Analysis", data.investigation),
         ("Conclusion and Recommendations", data.conclusion)] := by
      refine List.pairwise_map.mp ?_
      show List.Pairwise Ne [pyStrip "Nature of Incident",
        pyStrip "Damages Incurred (if any)", pyStrip "Investigation and Analysis",
        pyStrip "Conclusion and Recommendations"]
      decide
    refine parWrite_fold_get _ hpw dps hv j ?_ ?_ hhv hfi hlen
    · intro q hq q' hq'
      fin_cases hq <;> fin_cases hq' <;> exact hvals _ (by simp) _ (by simp)
    · intro q hq q' hq' j₁ j₂ hj₁ hj₂
      fin_cases hq <;> fin_cases hq' <;>
        exact hadj _ (by simp) _ (by simp) j₁ j₂ hj₁ hj₂

/-- A well-formed template: labelled 2-column rows in the first two tables
and the four section headings, each followed by a body paragraph. -/
def wellFormedDoc : Docx :=
  { tables := [[["Reported by", ""], ["Position", ""], ["Date of Report", ""],
                ["Incident No.", ""]],
               [["Date (YYYY-MM-DD)", ""], ["Time", ""], ["Location", ""],
                ["Current Status", ""]],
               [], []],
    paragraphs := ["Nature of Incident", "", "Damages Incurred (if any)", "",
                   "Investigation and Analysis", "", "Conclusion and Recommendations", ""] }

/-- Witness for C1: the amended statement applied to the well-formed
template and the sample submission. -/
theorem c1_amended_witness :
    ∃ out, generate_docx sampleIRData wellFormedDoc = some out ∧
      out.paragraphs.get? 3 = some "DMG" ∧
      ∃ t0', out.tables.get? 0 = some t0' ∧
        t0'.get? 0 = some (["Reported by", ""].set 1 "RB") := by
  have hN : firstStripIdx "Nature of Incident" wellFormedDoc.paragraphs = some 0 := rfl
  have hD : firstStripIdx "Damages Incurred (if any)" wellFormedDoc.paragraphs = some 2 := rfl
  have hI : firstStripIdx "Investigation and Analysis" wellFormedDoc.paragraphs = some 4 := rfl
  have hC : firstStripIdx "Conclusion and Recommendations" wellFormedDoc.paragraphs = some 6 := rfl
  have H := c1_amended sampleIRData wellFormedDoc _
    [["Reported by", ""], ["Position", ""], ["Date of Report", ""], ["Incident No.", ""]]
    [["Date (YYYY-MM-DD)", ""], ["Time", ""], ["Location", ""], ["Current Status", ""]]
    [] [] [] rfl rfl rfl rfl rfl rfl
    (by decide)
    (by
      intro h₁ hh₁ h₂ hh₂ j₁ j₂ hj₁ hj₂
      fin_cases hh₁ <;> fin_cases hh₂ <;>
        simp only [hN, hD, hI, hC, Option.some.injEq] at hj₁ hj₂ <;> omega)
  refine ⟨_, rfl, ?_, ?_⟩
  · have h2 := H.2 ("Damages Incurred (if any)", sampleIRData.damages)
      (by simp) 2 hD (by decide)
    exact h2
  · have h1 := H.1 ("Reported by", sampleIRData.reported_by) (by simp) 0
      ["Reported by", ""] rfl rfl (by decide)
    obtain ⟨t0', ht0', hcell, _⟩ := h1
    exact ⟨t0', ht0', hcell⟩

-- ==========================================================================
-- src/IR_gen.py : the submit handler control flow (lines 260-327)
-- ==========================================================================

inductive UiMsg where
  | errorMsg (text : String)
  | warningMsg (text : String)
  | successMsg (text : String)
deriving Repr, DecidableEq

/-- What a submission run did: which messages it showed and which later
steps executed. -/
structure SubmitTrace where
  messages : List UiMsg
  stopped : Bool
  generated : Bool
  uploadAttempted : Bool
  downloadOffered : Bool
deriving Repr, DecidableEq

/-- Model of the submit branch of src/IR_gen.py (lines 260-327).  External
calls are abstracted by their outcomes: `dupCheck` is the result of
check_duplicate_ir (an exception carries its message), `upload` the result
of the ensure_path/upload_file_to_folder block.  The generate_docx call
sits outside every try block and is treated as succeeding here (its own
failure mode is claim C5). -/
def submit_flow (serial_raw : String) (dupCheck : Except String Bool)
    (upload : Except String Unit) : SubmitTrace :=
  if normalize_serial serial_raw = "" then
    { messages := [.errorMsg "Enter a valid incident serial (numbers only up to 4 digits). Example: 0001 or 1."],
      stopped := true, generated := false, uploadAttempted := false,
      downloadOffered := false }
  else
    match dupCheck with
    | .ok true =>
      { messages := [.errorMsg "Duplicate found: this Incident No folder already exists. Use a new serial."],
        stopped := true, generated := false, uploadAttempted := false,
        downloadOffered := false }
    | .ok false => after_dup_check []
    | .error e => after_dup_check [.warningMsg ("Duplicate check failed (continuing): " ++ e)]
where
  after_dup_check (msgs1 : List UiMsg) : SubmitTrace :=
    match upload with
    | .ok _ =>
      { messages := msgs1 ++ [.successMsg "Report generated, folder created, and DOCX uploaded."],
        stopped := false, generated := true, uploadAttempted := true,
        downloadOffered := true }
    | .error e =>
      { messages := msgs1 ++ [.errorMsg ("Upload failed: " ++ e)],
        stopped := false, generated := true, uploadAttempted := true,
        downloadOffered := true }

/-- C4 (counterexample): a failing duplicate check shows a warning and the
submission continues to generation and the download offer; a failing upload
shows an error yet the download offer still executes.  In neither case does
processing stop. -/
theorem c4_counterexample :
    (UiMsg.warningMsg "Duplicate check failed (continuing): boom"
        ∈ (submit_flow "0001" (.error "boom") (.ok ())).messages ∧
      (submit_flow "0001" (.error "boom") (.ok ())).generated = true ∧
      (submit_flow "0001" (.error "boom") (.ok ())).downloadOffered = true ∧
      (submit_flow "0001" (.error "boom") (.ok ())).stopped = false) ∧
    (UiMsg.errorMsg "Upload failed: neterr"
        ∈ (submit_flow "0001" (.ok false) (.error "neterr")).messages ∧
      (submit_flow "0001" (.ok false) (.error "neterr")).downloadOffered = true ∧
      (submit_flow "0001" (.ok false) (.error "neterr")).stopped = false) := by
  refine ⟨⟨?_, rfl, rfl, rfl⟩, ⟨?_, rfl, rfl⟩⟩ <;> decide

/-- C4 (amended): exceptions are caught at the UI boundary and reported,
but processing does not uniformly stop: a duplicate-check failure warns and
continues, an upload failure shows an error and the download offer still
executes; only an invalid serial or a detected duplicate stops the
submission before generation. -/
theorem c4_amended (serial_raw : String) (dupCheck : Except String Bool)
    (upload : Except String Unit) :
    (∀ e, dupCheck = .error e → normalize_serial serial_raw ≠ "" →
      UiMsg.warningMsg ("Duplicate check failed (continuing): " ++ e)
          ∈ (submit_flow serial_raw dupCheck upload).messages ∧
        (submit_flow serial_raw dupCheck upload).generated = true ∧
        (submit_flow serial_raw dupCheck upload).downloadOffered = true ∧
        (submit_flow serial_raw dupCheck upload).stopped = false) ∧
    (∀ e, upload = .error e → normalize_serial serial_raw ≠ "" →
      dupCheck ≠ .ok true →
      UiMsg.errorMsg ("Upload failed: " ++ e)
          ∈ (submit_flow serial_raw dupCheck upload).messages ∧
        (submit_flow serial_raw dupCheck upload).downloadOffered = true) ∧
    (dupCheck = .ok true → normalize_serial serial_raw ≠ "" →
      (submit_flow serial_raw dupCheck upload).stopped = true ∧
        (submit_flow serial_raw dupCheck upload).generated = false) ∧
    (normalize_serial serial_raw = "" →
      (submit_flow serial_raw dupCheck upload).stopped = true ∧
        (submit_flow serial_raw dupCheck upload).generated = false) := by
  refine ⟨?_, ?_, ?_, ?_⟩
  · intro e hdup hser
    subst hdup
    cases hup : upload <;>
      simp [submit_flow, submit_flow.after_dup_check, hser, hup]
  · intro e hup hser hdup
    subst hup
    cases hdc : dupCheck with
    | ok b =>
      cases b with
      | true => exact absurd hdc hdup
      | false => simp [submit_flow, submit_flow.after_dup_check, hser]
    | error e₂ => simp [submit_flow, submit_flow.after_dup_check, hser]
  · intro hdup hser
    subst hdup
    simp [submit_flow, hser]
  · intro hser
    simp [submit_flow, hser]

/-- Witness for C4 at concrete outcomes. -/
theorem c4_amended_witness :
    (UiMsg.warningMsg "Duplicate check failed (continuing): x"
        ∈ (submit_flow "1" (.error "x") (.ok ())).messages ∧
      (submit_flow "1" (.error "x") (.ok ())).generated = true ∧
      (submit_flow "1" (.error "x") (.ok ())).downloadOffered = true ∧
      (submit_flow "1" (.error "x") (.ok ())).stopped = false) ∧
    ((submit_flow "1" (.ok true) (.ok ())).stopped = true ∧
      (submit_flow "1" (.ok true) (.ok ())).generated = false) ∧
    ((submit_flow "" (.ok false) (.ok ())).stopped = true ∧
      (submit_flow "" (.ok false) (.ok ())).generated = false) :=
  ⟨(c4_amended "1" (.error "x") (.ok ())).1 "x" rfl (by decide),
   (c4_amended "1" (.ok true) (.ok ())).2.2.1 rfl (by decide),
   (c4_amended "" (.ok false) (.ok ())).2.2.2 (by decide)⟩

-- ==========================================================================
-- src/ms_graph.py : the OAuth callback redemption of login_ui (lines 120-166)
-- ==========================================================================

/-- The dict MSAL returns from a redemption call.  `isEmptyDict` models
Python falsiness of an empty dict (`if not result`). -/
structure TokenDict where
  isEmptyDict : Bool
  hasAccessToken : Bool
  errorText : String
  errorDescription : String
deriving Repr, DecidableEq

inductive PrimaryOutcome where
  | valueError
  | returns (d : TokenDict)
deriving Repr, DecidableEq

inductive FallbackOutcome where
  | raises (e : String)
  | returns (d : TokenDict)
deriving Repr, DecidableEq

/-- The two redemption paths of login_ui. -/
inductive RedeemAttempt where
  | auth_code_flow
  | authorization_code
deriving Repr, DecidableEq

structure LoginTrace where
  attempts : List RedeemAttempt
  messages : List UiMsg
  tokenStored : Bool
  rerun : Bool
deriving Repr, DecidableEq

/-- Model of the callback branch of `login_ui` (src/ms_graph.py lines
123-166).  `flowStored` is whether `_flow_store().get(state)` found the
flow; `primary` is the outcome of `acquire_token_by_auth_code_flow`
(a ValueError is swallowed, leaving result = None); `fallback` the outcome
of `acquire_token_by_authorization_code`, tried whenever the result so far
is falsy. -/
def login_callback (flowStored : Bool) (primary : PrimaryOutcome)
    (fallback : FallbackOutcome) : LoginTrace :=
  let primaryResult : Option TokenDict :=
    if flowStored then
      match primary with
      | .valueError => none
      | .returns d => some d
    else none
  let att0 : List RedeemAttempt := if flowStored then [.auth_code_flow] else []
  let falsy : Bool :=
    match primaryResult with
    | none => true
    | some d => d.isEmptyDict
  if falsy then
    match fallback with
    | .raises e =>
      { attempts := att0 ++ [.authorization_code],
        messages := [.errorMsg ("Login failed while redeeming code: " ++ e)],
        tokenStored := false, rerun := false }
    | .returns d => finish_redeem (att0 ++ [.authorization_code]) d
  else
    match primaryResult with
    | some d => finish_redeem att0 d
    | none => { attempts := att0, messages := [], tokenStored := false, rerun := false }
where
  finish_redeem (atts : List RedeemAttempt) (d : TokenDict) : LoginTrace :=
    if !d.isEmptyDict && d.hasAccessToken then
      { attempts := atts, messages := [], tokenStored := true, rerun := true }
    else
      { attempts := atts,
        messages := [.errorMsg ("Login failed: " ++ d.errorText ++ " - " ++ d.errorDescription)],
        tokenStored := false, rerun := false }

/-- Was the flow-based redemption result falsy (forcing the fallback)? -/
def primary_falsy (flowStored : Bool) (primary : PrimaryOutcome) : Bool :=
  match flowStored, primary with
  | false, _ => true
  | true, .valueError => true
  | true, .returns d => d.isEmptyDict

/-- Whatever the token dict holds, the redemption wrap-up does not add
attempts. -/
theorem finish_redeem_attempts (atts : List RedeemAttempt) (d : TokenDict) :
    (login_callback.finish_redeem atts d).attempts = atts := by
  unfold login_callback.finish_redeem
  split <;> rfl

/-- C6 (counterexample): when the stored flow's redemption raises
ValueError, the same authorization code is redeemed a second time through
the alternative direct path — two attempts, not one. -/
theorem c6_counterexample :
    (login_callback true .valueError (.returns ⟨false, true, "", ""⟩)).attempts
      = [.auth_code_flow, .authorization_code] ∧
    (login_callback true .valueError (.returns ⟨false, true, "", ""⟩)).attempts.length ≠ 1 := by
  exact ⟨rfl, by decide⟩

/-- C6 (amended): the OAuth code redemption is attempted at most twice —
a second, alternative-path attempt happens exactly when the flow-based
redemption was tried and came back falsy (ValueError or empty) — and a
fallback failure is reported with no further attempt and no token stored. -/
theorem c6_amended (flowStored : Bool) (primary : PrimaryOutcome)
    (fallback : FallbackOutcome) :
    (login_callback flowStored primary fallback).attempts.length ≤ 2 ∧
    ((login_callback flowStored primary fallback).attempts
        = [.auth_code_flow, .authorization_code] ↔
      flowStored = true ∧ primary_falsy flowStored primary = true) ∧
    (∀ e, fallback = .raises e → primary_falsy flowStored primary = true →
      (login_callback flowStored primary fallback).messages
          = [.errorMsg ("Login failed while redeeming code: " ++ e)] ∧
        (login_callback flowStored primary fallback).tokenStored = false) := by
  refine ⟨?_, ?_, ?_⟩
  · cases flowStored <;> cases primary <;> cases fallback <;>
      simp [login_callback, finish_redeem_attempts] <;>
      (try split) <;> simp [finish_redeem_attempts]
  · cases flowStored <;> cases primary <;> cases fallback <;>
      simp [login_callback, finish_redeem_attempts, primary_falsy] <;>
      (try split) <;> simp_all [finish_redeem_attempts]
  · intro e hfb hfal
    subst hfb
    cases flowStored <;> cases primary <;>
      simp_all [login_callback, primary_falsy]

/-- Witness for C6: fallback failure after a falsy flow redemption. -/
theorem c6_amended_witness :
    (login_callback true .valueError (.raises "bad_code")).messages
        = [.errorMsg ("Login failed while redeeming code: " ++ "bad_code")] ∧
      (login_callback true .valueError (.raises "bad_code")).tokenStored = false :=
  (c6_amended true .valueError (.raises "bad_code")).2.2 "bad_code" rfl (by decide)

-- ==========================================================================
-- src/ms_graph.py lines 52-97 and src/sat_tracker.py lines 337-338, 477-498:
-- cross-session state and timer-driven updates
-- ==========================================================================

/-- An initiated MSAL auth-code flow, identified by its OAuth state. -/
structure AuthFlow where
  state : String
deriving Repr, DecidableEq

/-- The @st.cache_resource flow store of src/ms_graph.py (lines 52-55):
st.cache_resource yields one dict per server process, so every user
session reads and writes the same store.  A dict write is modelled as a
cons (lookup takes the newest binding for a key, as a dict overwrite
would). -/
structure ServerProcess where
  flow_store : List (String × AuthFlow)
deriving Repr, DecidableEq

/-- Model of _start_flow storing the flow (src/ms_graph.py line 97:
_flow_store()[state] = flow): it mutates the process-wide store, with no
session identifier involved. -/
def start_flow_store (srv : ServerProcess) (state : String) (fl : AuthFlow) : ServerProcess :=
  { flow_store := (state, fl) :: srv.flow_store }

/-- Model of the callback lookup _flow_store().get(state) (src/ms_graph.py
line 131): keyed only by the OAuth state, again with no session
identifier. -/
def lookup_flow (srv : ServerProcess) (state : String) : Option AuthFlow :=
  (srv.flow_store.find? (fun p => p.1 == state)).map (fun p => p.2)

/-- The state MainWindow.live_tick reads (src/sat_tracker.py lines
477-484): whether the embedded page finished loading, which NORAD ids are
selected, and the subpoint each id propagates to.  The skyfield numeric
propagation is abstracted as a per-id position oracle, since the claims
concern whether a timer-driven update happens, not the orbital
arithmetic. -/
structure TrackerState where
  webLoaded : Bool
  selectedNorads : List String
  satPositions : String → Option (Int × Int)

/-- A JavaScript call pushed into the embedded map page. -/
inductive JsCmd where
  | updateSatellite (norad : String) (lon lat : Int)
deriving Repr, DecidableEq

/-- Model of MainWindow.live_tick (src/sat_tracker.py lines 477-498): on a
QTimer timeout it returns early unless the page is loaded and satellites
are selected, and otherwise emits one updateSatellite JavaScript call per
selected satellite whose position is available. -/
def live_tick (st : TrackerState) : List JsCmd :=
  if !st.webLoaded || st.selectedNorads.isEmpty then []
  else st.selectedNorads.filterMap
    (fun n => (st.satPositions n).map (fun p => JsCmd.updateSatellite n p.1 p.2))

/-- Model of the timer wiring (src/sat_tracker.py lines 337-338 connect the
QTimer timeout to live_tick; on_web_load_finished starts the timer when the
load succeeded and the live checkbox is on). -/
def timer_started_on_load (ok live_checked : Bool) : Bool := ok && live_checked

/-- C7 (counterexample): the flow store is process-global, so a flow stored
while one session starts a login is visible to a lookup from any other
session — and that shared state changes the other session's callback
behaviour (which redemption paths run).  Separately, the tracker starts a
timer whose handler emits satellite position updates on each tick. -/
theorem c7_counterexample :
    lookup_flow (start_flow_store ⟨[]⟩ "st1" ⟨"st1"⟩) "st1" = some ⟨"st1"⟩ ∧
    lookup_flow ⟨[]⟩ "st1" = none ∧
    (login_callback (lookup_flow (start_flow_store ⟨[]⟩ "st1" ⟨"st1"⟩) "st1").isSome
        .valueError (.returns ⟨false, true, "", ""⟩)).attempts ≠
      (login_callback (lookup_flow (⟨[]⟩ : ServerProcess) "st1").isSome
        .valueError (.returns ⟨false, true, "", ""⟩)).attempts ∧
    timer_started_on_load true true = true ∧
    live_tick ⟨true, ["39227"], fun n => if n = "39227" then some (10, 20) else none⟩
      = [.updateSatellite "39227" 10 20] := by
  refine ⟨rfl, rfl, by decide, rfl, rfl⟩

/-- C7 (amended): concurrency is not absent: the auth-flow store is shared
mutable state across sessions (a store write under a state key is read back
by any session's lookup of that key), and the tracker's timer-driven tick
updates the position of every selected satellite with a known subpoint
whenever the page is loaded. -/
theorem c7_amended :
    (∀ (srv : ServerProcess) (state : String) (fl : AuthFlow),
      lookup_flow (start_flow_store srv state fl) state = some fl) ∧
    (∀ (st : TrackerState) (n : String) (p : Int × Int),
      st.webLoaded = true → n ∈ st.selectedNorads → st.satPositions n = some p →
      JsCmd.updateSatellite n p.1 p.2 ∈ live_tick st) ∧
    (∀ ok live_checked : Bool,
      timer_started_on_load ok live_checked = true ↔ ok = true ∧ live_checked = true) := by
  refine ⟨?_, ?_, ?_⟩
  · intro srv state fl
    simp [lookup_flow, start_flow_store, List.find?]
  · intro st n p hw hn hp
    have hne : st.selectedNorads.isEmpty = false := by
      cases hsel : st.selectedNorads with
      | nil => rw [hsel] at hn; cases hn
      | cons a t => rfl
    simp only [live_tick, hw, hne, Bool.not_true, Bool.or_self, if_neg Bool.false_ne_true]
    exact List.mem_filterMap.mpr ⟨n, hn, by rw [hp]; rfl⟩
  · intro ok live_checked
    simp [timer_started_on_load]

/-- Witness for C7 at a concrete store and tracker state. -/
theorem c7_amended_witness :
    lookup_flow (start_flow_store ⟨[("old", ⟨"old"⟩)]⟩ "s2" ⟨"s2"⟩) "s2" = some ⟨"s2"⟩ ∧
    JsCmd.updateSatellite "25544" 121 14
        ∈ live_tick ⟨true, ["25544", "39227"], fun n => if n = "25544" then some (121, 14) else none⟩ ∧
    (timer_started_on_load true true = true ↔ true = true ∧ true = true) :=
  ⟨c7_amended.1 ⟨[("old", ⟨"old"⟩)]⟩ "s2" ⟨"s2"⟩,
   c7_amended.2.1 ⟨true, ["25544", "39227"], fun n => if n = "25544" then some (121, 14) else none⟩
     "25544" (121, 14) rfl (by simp) rfl,
   c7_amended.2.2 true true⟩
